import Mathlib

set_option maxRecDepth 10000

/-!
Shallow embedding of the CHIP-8 interpreter core from `src/main.c`.

The machine state mirrors the C `Chip8` struct.  All fixed-size C arrays
become `List Nat` of the corresponding length; 8-bit and 16-bit machine
integers become `Nat` with explicit `% 256` / `% 65536` at the points where
the C code stores into a `uint8_t` / `uint16_t`.  Every C array access whose
index is not forced in bounds by construction goes through a checked
read/write (`rd` / `wr`); an out-of-bounds access (undefined behavior in the
C program) is modelled as `Except.error b` where `b` names the buffer that
was overrun.  `rand()` is modelled by an extra parameter `r` passed to
`emulate_cycle`; the C code uses `rand() % 256`.
-/

/-- Which fixed buffer of the `Chip8` struct an out-of-bounds access hit. -/
inductive Buf
  | mem
  | stk
  | gfx
  | key
deriving DecidableEq, Repr

/-- The `Chip8` struct from `src/main.c` (the SDL-side `keymap` is host code
and is not part of the machine state). -/
structure Chip8 where
  memory : List Nat
  V : List Nat
  I : Nat
  pc : Nat
  gfx : List Nat
  delay_timer : Nat
  sound_timer : Nat
  stack : List Nat
  sp : Nat
  key : List Nat
  draw_flag : Bool
deriving DecidableEq, Repr

/-- Checked array read: a C read `l[i]`; out of bounds is an error tagged
with the buffer that was overrun. -/
def rd (b : Buf) (l : List Nat) (i : Nat) : Except Buf Nat :=
  if i < l.length then .ok (l.getD i 0) else .error b

/-- Checked array write: a C write `l[i] = v`. -/
def wr (b : Buf) (l : List Nat) (i v : Nat) : Except Buf (List Nat) :=
  if i < l.length then .ok (l.set i v) else .error b

/-- `init_cpu` from `src/main.c`: pc/I/sp/draw_flag are set and the five
arrays are `memset` to zero.  The two timers are NOT touched by the C
function, so they keep whatever value the struct previously held. -/
def init_cpu (cpu : Chip8) : Chip8 :=
  { cpu with
    pc := 0x200
    I := 0
    sp := 0
    draw_flag := true
    memory := List.replicate 4096 0
    V := List.replicate 16 0
    gfx := List.replicate (64 * 32) 0
    stack := List.replicate 16 0
    key := List.replicate 16 0 }

/-- The `fread(&cpu->memory[0x200], 1, size, f)` byte copy of `load_rom`:
write the ROM bytes consecutively starting at `addr`.  File bytes are
8-bit, hence the `% 256`. -/
def writeBytes (mem : List Nat) (addr : Nat) : List Nat → List Nat
  | [] => mem
  | b :: bs => writeBytes (mem.set addr (b % 256)) (addr + 1) bs

/-- `load_rom` from `src/main.c`, with file I/O abstracted to the byte image
`rom` the host delivers: fails when the image is larger than `4096 - 512`
bytes, otherwise copies it to memory starting at `0x200`. -/
def load_rom (cpu : Chip8) (rom : List Nat) : Option Chip8 :=
  if rom.length > 4096 - 512 then none
  else some { cpu with memory := writeBytes cpu.memory 0x200 rom }

/-- Modelled from the spec: the repository has no `tick_timers` function
(`src/main.c` has no 60 Hz tick entry point at all); the spec says each tick
"decrements `delay_timer` and `sound_timer` by 1 saturating at 0". -/
def tick_timers (cpu : Chip8) : Chip8 :=
  { cpu with
    delay_timer := cpu.delay_timer - 1
    sound_timer := cpu.sound_timer - 1 }

/-- Modelled from the spec: the standard 80-byte CHIP-8 hex font (five bytes
per digit 0–F) that the spec's Loader installs at 0x000–0x04F.  `src/main.c`
contains no font table and never writes one. -/
def chip8_fontset : List Nat :=
  [0xF0, 0x90, 0x90, 0x90, 0xF0,
   0x20, 0x60, 0x20, 0x20, 0x70,
   0xF0, 0x10, 0xF0, 0x80, 0xF0,
   0xF0, 0x10, 0xF0, 0x10, 0xF0,
   0x90, 0x90, 0xF0, 0x10, 0x10,
   0xF0, 0x80, 0xF0, 0x10, 0xF0,
   0xF0, 0x80, 0xF0, 0x90, 0xF0,
   0xF0, 0x10, 0x20, 0x40, 0x40,
   0xF0, 0x90, 0xF0, 0x90, 0xF0,
   0xF0, 0x90, 0xF0, 0x10, 0xF0,
   0xF0, 0x90, 0xF0, 0x90, 0x90,
   0xE0, 0x90, 0xE0, 0x90, 0xE0,
   0xF0, 0x80, 0x80, 0x80, 0xF0,
   0xE0, 0x90, 0x90, 0x90, 0xE0,
   0xF0, 0x80, 0xF0, 0x80, 0xF0,
   0xF0, 0x80, 0xF0, 0x80, 0x80]

/-- The screen index computed in the `DXYN` case:
`int idx = ((x + xline) % 64) + ((y + yline) % 32) * 64;`. -/
def colIdx (x y yline xline : Nat) : Nat :=
  ((x + xline) % 64) + ((y + yline) % 32) * 64

/-- The inner `for (int xline = 0; xline < 8; xline++)` loop of `DXYN`:
`n` iterations remain, the current column is `xline`.  For each set sprite
bit: collision check against the current pixel, then XOR-toggle it. -/
def drawColsAux (pixel x y yline : Nat) :
    Nat → Nat → List Nat → Nat → Except Buf (List Nat × Nat)
  | 0, _, gfx, vf => .ok (gfx, vf)
  | n + 1, xline, gfx, vf =>
    if pixel &&& (0x80 >>> xline) ≠ 0 then do
      let idx := colIdx x y yline xline
      let p ← rd .gfx gfx idx
      let vf1 := if p = 1 then 1 else vf
      let gfx1 ← wr .gfx gfx idx ((p ^^^ 1) % 256)
      drawColsAux pixel x y yline n (xline + 1) gfx1 vf1
    else
      drawColsAux pixel x y yline n (xline + 1) gfx vf

/-- The outer `for (int yline = 0; yline < height; yline++)` loop of `DXYN`:
`n` iterations remain, the current row is `yline`.  Each row reads
`pixel = memory[I + yline]` and then runs the 8-column inner loop. -/
def drawRowsAux (mem : List Nat) (I x y : Nat) :
    Nat → Nat → List Nat → Nat → Except Buf (List Nat × Nat)
  | 0, _, gfx, vf => .ok (gfx, vf)
  | n + 1, yline, gfx, vf => do
    let pixel ← rd .mem mem (I + yline)
    let pr ← drawColsAux pixel x y yline 8 0 gfx vf
    drawRowsAux mem I x y n (yline + 1) pr.1 pr.2

/-- The whole sprite-drawing body of the `DXYN` case: `V[0xF]` starts at 0
(the C code's `cpu->V[0xF] = 0;`), then the row loop runs; the result is the
new framebuffer and the final collision flag. -/
def drawSprite (mem : List Nat) (I x y height : Nat) (gfx : List Nat) :
    Except Buf (List Nat × Nat) :=
  drawRowsAux mem I x y height 0 gfx 0

/-- `case 0x0000` of `emulate_cycle`: `00E0` clear screen, `00EE` return
(`sp--` wraps as a `uint16_t`; no underflow check), other `0NNN` skipped. -/
def exec0 (cpu : Chip8) (opcode : Nat) : Except Buf Chip8 :=
  if opcode &&& 0x00FF = 0x00E0 then
    .ok { cpu with
          gfx := List.replicate (64 * 32) 0
          draw_flag := true
          pc := (cpu.pc + 2) % 65536 }
  else if opcode &&& 0x00FF = 0x00EE then do
    let sp1 := (cpu.sp + 65535) % 65536
    let ret ← rd .stk cpu.stack sp1
    .ok { cpu with sp := sp1, pc := (ret + 2) % 65536 }
  else
    .ok { cpu with pc := (cpu.pc + 2) % 65536 }

/-- `case 0x1000` of `emulate_cycle`: jump to `NNN`. -/
def exec1NNN (cpu : Chip8) (opcode : Nat) : Chip8 :=
  { cpu with pc := opcode &&& 0x0FFF }

/-- `case 0x2000` of `emulate_cycle`: `stack[sp] = pc; sp++;` (no overflow
check) then jump to `NNN`. -/
def exec2NNN (cpu : Chip8) (opcode : Nat) : Except Buf Chip8 := do
  let stack1 ← wr .stk cpu.stack cpu.sp cpu.pc
  .ok { cpu with
        stack := stack1
        sp := (cpu.sp + 1) % 65536
        pc := opcode &&& 0x0FFF }

/-- `case 0x3000` of `emulate_cycle`: skip next instruction if `V[x] == nn`. -/
def exec3XNN (cpu : Chip8) (opcode : Nat) : Chip8 :=
  let x := (opcode &&& 0x0F00) >>> 8
  let nn := opcode &&& 0x00FF
  if cpu.V.getD x 0 = nn then { cpu with pc := (cpu.pc + 4) % 65536 }
  else { cpu with pc := (cpu.pc + 2) % 65536 }

/-- `case 0x4000` of `emulate_cycle`: skip next instruction if `V[x] != nn`. -/
def exec4XNN (cpu : Chip8) (opcode : Nat) : Chip8 :=
  let x := (opcode &&& 0x0F00) >>> 8
  let nn := opcode &&& 0x00FF
  if cpu.V.getD x 0 ≠ nn then { cpu with pc := (cpu.pc + 4) % 65536 }
  else { cpu with pc := (cpu.pc + 2) % 65536 }

/-- `case 0xC000` of `emulate_cycle`: `V[x] = (rand() % 256) & nn`, with the
`rand()` value supplied as the parameter `r`. -/
def execCXNN (cpu : Chip8) (opcode r : Nat) : Chip8 :=
  let x := (opcode &&& 0x0F00) >>> 8
  let nn := opcode &&& 0x00FF
  { cpu with
    V := cpu.V.set x ((r % 256) &&& nn)
    pc := (cpu.pc + 2) % 65536 }

/-- `case 0xE000` of `emulate_cycle`: `EX9E` / `EXA1` key skips.  The index
into `key` is the full 8-bit `V[x]` — the C code applies no `& 0xF` mask. -/
def execEXNN (cpu : Chip8) (opcode : Nat) : Except Buf Chip8 :=
  let x := (opcode &&& 0x0F00) >>> 8
  if opcode &&& 0x00FF = 0x9E then do
    let k ← rd .key cpu.key (cpu.V.getD x 0)
    if k ≠ 0 then .ok { cpu with pc := (cpu.pc + 4) % 65536 }
    else .ok { cpu with pc := (cpu.pc + 2) % 65536 }
  else if opcode &&& 0x00FF = 0xA1 then do
    let k ← rd .key cpu.key (cpu.V.getD x 0)
    if k = 0 then .ok { cpu with pc := (cpu.pc + 4) % 65536 }
    else .ok { cpu with pc := (cpu.pc + 2) % 65536 }
  else
    .ok { cpu with pc := (cpu.pc + 2) % 65536 }

/-- `case 0xF000` of `emulate_cycle`: `FX07`, `FX15`, `FX18`; anything else
just advances. -/
def execFXNN (cpu : Chip8) (opcode : Nat) : Chip8 :=
  let x := (opcode &&& 0x0F00) >>> 8
  if opcode &&& 0x00FF = 0x07 then
    { cpu with V := cpu.V.set x cpu.delay_timer, pc := (cpu.pc + 2) % 65536 }
  else if opcode &&& 0x00FF = 0x15 then
    { cpu with delay_timer := cpu.V.getD x 0, pc := (cpu.pc + 2) % 65536 }
  else if opcode &&& 0x00FF = 0x18 then
    { cpu with sound_timer := cpu.V.getD x 0, pc := (cpu.pc + 2) % 65536 }
  else
    { cpu with pc := (cpu.pc + 2) % 65536 }

/-- `case 0x6000` of `emulate_cycle`: `V[x] = nn`. -/
def exec6XNN (cpu : Chip8) (opcode : Nat) : Chip8 :=
  let x := (opcode &&& 0x0F00) >>> 8
  let nn := opcode &&& 0x00FF
  { cpu with V := cpu.V.set x nn, pc := (cpu.pc + 2) % 65536 }

/-- `case 0x7000` of `emulate_cycle`: `V[x] += nn` (8-bit wrap-around,
carry flag untouched). -/
def exec7XNN (cpu : Chip8) (opcode : Nat) : Chip8 :=
  let x := (opcode &&& 0x0F00) >>> 8
  let nn := opcode &&& 0x00FF
  { cpu with
    V := cpu.V.set x ((cpu.V.getD x 0 + nn) % 256)
    pc := (cpu.pc + 2) % 65536 }

/-- `case 0x8000` of `emulate_cycle`: the implemented sub-cases `8XY0`–`8XY5`
(shifts are absent from the source).  Note the C code writes the flag
`V[0xF]` BEFORE storing the primary result into `V[x]`; in `8XY5` even the
subtraction `V[x] -= V[y]` reads the registers after the flag write.  The
final `pc += 2` applies to every sub-case including the unknown default. -/
def exec8XYN (cpu : Chip8) (opcode : Nat) : Chip8 :=
  let x := (opcode &&& 0x0F00) >>> 8
  let y := (opcode &&& 0x00F0) >>> 4
  let cpu1 :=
    if opcode &&& 0x000F = 0x0 then
      { cpu with V := cpu.V.set x (cpu.V.getD y 0) }
    else if opcode &&& 0x000F = 0x1 then
      { cpu with V := cpu.V.set x ((cpu.V.getD x 0 ||| cpu.V.getD y 0) % 256) }
    else if opcode &&& 0x000F = 0x2 then
      { cpu with V := cpu.V.set x ((cpu.V.getD x 0 &&& cpu.V.getD y 0) % 256) }
    else if opcode &&& 0x000F = 0x3 then
      { cpu with V := cpu.V.set x ((cpu.V.getD x 0 ^^^ cpu.V.getD y 0) % 256) }
    else if opcode &&& 0x000F = 0x4 then
      let sum := cpu.V.getD x 0 + cpu.V.getD y 0
      let V1 := if sum > 255 then cpu.V.set 0xF 1 else cpu.V.set 0xF 0
      { cpu with V := V1.set x (sum &&& 0xFF) }
    else if opcode &&& 0x000F = 0x5 then
      let V1 := if cpu.V.getD x 0 ≥ cpu.V.getD y 0 then cpu.V.set 0xF 1
                else cpu.V.set 0xF 0
      { cpu with V := V1.set x ((V1.getD x 0 + 256 - V1.getD y 0) % 256) }
    else cpu
  { cpu1 with pc := (cpu1.pc + 2) % 65536 }

/-- `case 0xA000` of `emulate_cycle`: `I = NNN`. -/
def execANNN (cpu : Chip8) (opcode : Nat) : Chip8 :=
  { cpu with I := opcode &&& 0x0FFF, pc := (cpu.pc + 2) % 65536 }

/-- `case 0xD000` of `emulate_cycle`: read the two coordinate registers and
the height nibble, run the sprite loops, store the collision flag in
`V[0xF]`, set `draw_flag`, advance. -/
def execDXYN (cpu : Chip8) (opcode : Nat) : Except Buf Chip8 := do
  let x := cpu.V.getD ((opcode &&& 0x0F00) >>> 8) 0
  let y := cpu.V.getD ((opcode &&& 0x00F0) >>> 4) 0
  let height := opcode &&& 0x000F
  let pr ← drawSprite cpu.memory cpu.I x y height cpu.gfx
  .ok { cpu with
        V := cpu.V.set 0xF pr.2
        gfx := pr.1
        draw_flag := true
        pc := (cpu.pc + 2) % 65536 }

/-- The `default:` case of the opcode switch: unknown instructions are
skipped to avoid live-lock. -/
def execDefault (cpu : Chip8) : Chip8 :=
  { cpu with pc := (cpu.pc + 2) % 65536 }

/-- The two timer lines at the end of `emulate_cycle`:
`if (cpu->delay_timer > 0) cpu->delay_timer--;` and likewise for sound. -/
def applyTimers (cpu : Chip8) : Chip8 :=
  let cpu1 :=
    if cpu.delay_timer > 0 then { cpu with delay_timer := cpu.delay_timer - 1 }
    else cpu
  if cpu1.sound_timer > 0 then { cpu1 with sound_timer := cpu1.sound_timer - 1 }
  else cpu1

/-- `emulate_cycle` from `src/main.c`: fetch the big-endian opcode at `pc`,
dispatch on the top nibble exactly as the C `switch` does, then run the two
timer-decrement lines.  `r` stands for the `rand()` value consumed by
`CXNN`. -/
def emulate_cycle (cpu : Chip8) (r : Nat) : Except Buf Chip8 := do
  let byte1 ← rd .mem cpu.memory cpu.pc
  let byte2 ← rd .mem cpu.memory (cpu.pc + 1)
  let opcode := (byte1 <<< 8) ||| byte2
  let cpu1 ←
    if opcode &&& 0xF000 = 0x0000 then exec0 cpu opcode
    else if opcode &&& 0xF000 = 0x1000 then .ok (exec1NNN cpu opcode)
    else if opcode &&& 0xF000 = 0x2000 then exec2NNN cpu opcode
    else if opcode &&& 0xF000 = 0x3000 then .ok (exec3XNN cpu opcode)
    else if opcode &&& 0xF000 = 0x4000 then .ok (exec4XNN cpu opcode)
    else if opcode &&& 0xF000 = 0xC000 then .ok (execCXNN cpu opcode r)
    else if opcode &&& 0xF000 = 0xE000 then execEXNN cpu opcode
    else if opcode &&& 0xF000 = 0xF000 then .ok (execFXNN cpu opcode)
    else if opcode &&& 0xF000 = 0x6000 then .ok (exec6XNN cpu opcode)
    else if opcode &&& 0xF000 = 0x7000 then .ok (exec7XNN cpu opcode)
    else if opcode &&& 0xF000 = 0x8000 then .ok (exec8XYN cpu opcode)
    else if opcode &&& 0xF000 = 0xA000 then .ok (execANNN cpu opcode)
    else if opcode &&& 0xF000 = 0xD000 then execDXYN cpu opcode
    else .ok (execDefault cpu)
  .ok (applyTimers cpu1)

/-- Iterate `emulate_cycle` a given number of steps (the host's inner
`for (int i = 0; i < 10; i++) emulate_cycle(&cpu);` loop generalized). -/
def runSteps (s : Chip8) (r : Nat) : Nat → Except Buf Chip8
  | 0 => .ok s
  | n + 1 => do
    let s1 ← emulate_cycle s r
    runSteps s1 r n

/-- The big-endian opcode `(memory[pc] << 8) | memory[pc+1]` as a function of
the state (used to phrase hypotheses about the fetched instruction). -/
def fetchOp (s : Chip8) : Nat :=
  (s.memory.getD s.pc 0 <<< 8) ||| s.memory.getD (s.pc + 1) 0

/-- Well-formedness of a machine state: the C type layout (array lengths and
integer ranges of the `Chip8` struct fields) plus the two run-time facts
`sp ≤ 16` and `gfx ∈ {0,1}` that hold from initialization on. -/
def WF (s : Chip8) : Prop :=
  s.memory.length = 4096 ∧ (∀ a ∈ s.memory, a < 256) ∧
  s.V.length = 16 ∧ (∀ a ∈ s.V, a < 256) ∧
  s.gfx.length = 2048 ∧ (∀ a ∈ s.gfx, a = 0 ∨ a = 1) ∧
  s.stack.length = 16 ∧ (∀ a ∈ s.stack, a < 65536) ∧
  s.key.length = 16 ∧
  s.sp ≤ 16 ∧ s.pc < 65536 ∧ s.I < 65536 ∧
  s.delay_timer < 256 ∧ s.sound_timer < 256

/-- The framebuffer cells a `DXYN` sprite draw targets: cell `i` is hit when
some in-range row/column pair has its sprite bit set and maps to `i` through
the wrap-around index computation. -/
def spriteTarget (mem : List Nat) (I x y height i : Nat) : Prop :=
  ∃ rr c, rr < height ∧ c < 8 ∧
    mem.getD (I + rr) 0 &&& (0x80 >>> c) ≠ 0 ∧
    i = colIdx x y rr c

/-- States reachable from a freshly loaded ROM: the base case is
`init_cpu` followed by a successful `load_rom` (the timers of the
pre-existing struct are indeterminate but in `uint8_t` range), and the
closure is any number of successful `emulate_cycle` steps. -/
inductive Reach : Chip8 → Prop where
  | load : ∀ (pre : Chip8) (rom : List Nat) (s : Chip8),
      pre.delay_timer < 256 → pre.sound_timer < 256 →
      load_rom (init_cpu pre) rom = some s → Reach s
  | step : ∀ (s : Chip8) (r : Nat) (s1 : Chip8),
      Reach s → emulate_cycle s r = .ok s1 → Reach s1

/-- An all-zero well-formed state used as a concrete base point for
witnesses and counterexamples. -/
def zeroState : Chip8 :=
  { memory := List.replicate 4096 0
    V := List.replicate 16 0
    I := 0
    pc := 0x200
    gfx := List.replicate 2048 0
    delay_timer := 0
    sound_timer := 0
    stack := List.replicate 16 0
    sp := 0
    key := List.replicate 16 0
    draw_flag := true }

/-- The cells one sprite row toggles, parametrized for the column loop: some
column `c` with `lo ≤ c < lo + n` has its bit of `pixel` set and maps to
cell `i` through the wrap-around index computation. -/
def colHit (pixel x y yline lo n i : Nat) : Prop :=
  ∃ c, lo ≤ c ∧ c < lo + n ∧ pixel &&& (0x80 >>> c) ≠ 0 ∧ i = colIdx x y yline c

/-- The cells a sprite draw toggles, parametrized for the row loop: some row
`rr` with `lo ≤ rr < lo + n` and column `c < 8` has its sprite bit set and
maps to cell `i`. -/
def rowHit (mem : List Nat) (I x y lo n i : Nat) : Prop :=
  ∃ rr c, lo ≤ rr ∧ rr < lo + n ∧ c < 8 ∧
    mem.getD (I + rr) 0 &&& (0x80 >>> c) ≠ 0 ∧ i = colIdx x y rr c

/-- Concrete state: `8FE4` (`V[0xF] += V[0xE]` with carry) at pc = 0 with
`V[0xF] = 200`, `V[0xE] = 100` (memory shortened to the two opcode bytes;
`emulate_cycle` touches nothing past them). -/
def c1state : Chip8 :=
  { zeroState with
    memory := [0x8F, 0xE4]
    pc := 0
    V := (zeroState.V.set 0xF 200).set 0xE 100 }

/-- Concrete state: a `1200` jump at pc = 0 with both timers running. -/
def c2state : Chip8 :=
  { zeroState with
    memory := [0x12, 0x00]
    pc := 0
    delay_timer := 5
    sound_timer := 3 }

/-- Concrete state: `E09E` (skip if key `V[0]` pressed) at pc = 0 with
`V[0] = 200`, far beyond the 16-entry `key` array. -/
def c3state : Chip8 :=
  { zeroState with
    memory := [0xE0, 0x9E]
    pc := 0
    V := zeroState.V.set 0 200 }

/-- A two-byte ROM holding the single jump `1FFE`. -/
def c4rom : List Nat := [0x1F, 0xFE]

/-- The machine state after loading `c4rom` (base of the `Reach` relation). -/
def c4s0 : Chip8 := (load_rom (init_cpu zeroState) c4rom).getD zeroState

/-- Concrete state: `00EE` (return) at pc = 0 with an empty stack, `sp = 0`. -/
def c5under : Chip8 :=
  { zeroState with
    memory := [0x00, 0xEE]
    pc := 0 }

/-- Concrete state: `2200` (call 0x200) at pc = 0 with a full stack, `sp = 16`. -/
def c5over : Chip8 :=
  { zeroState with
    memory := [0x22, 0x00]
    pc := 0
    sp := 16 }

/-- Concrete state: `2008` (call 0x008) at pc = 0 and `00EE` (return) at
address 8. -/
def c6state : Chip8 :=
  { zeroState with
    memory := [0x20, 0x08, 0, 0, 0, 0, 0, 0, 0x00, 0xEE]
    pc := 0 }

/-- A one-byte sprite memory: the single byte `0x80` (top-left bit set). -/
def c7mem : List Nat := [0x80]

/-- The framebuffer after drawing `c7mem`
at (0,0) on an all-black screen: only cell 0 is lit. -/
def c7g1 : List Nat := (List.replicate 2048 0).set 0 1

/-- A pre-`init_cpu` struct whose (in C: indeterminate) delay timer reads 7. -/
def c8pre : Chip8 := { zeroState with delay_timer := 7 }

/-- Concrete state: `D000` (draw height 0) at pc = 0. -/
def c9state : Chip8 :=
  { zeroState with
    memory := [0xD0, 0x00]
    pc := 0 }

/-- The machine state after `init_cpu` + `load_rom` of the one-byte ROM
`[0xAB]` starting from `c8pre`. -/
def c8loaded : Chip8 := (load_rom (init_cpu c8pre) [0xAB]).getD zeroState

/-! ### Basic lemmas about the checked accessors and list operations -/

theorem ok_bind {α β : Type} (a : α) (f : α → Except Buf β) :
    (Except.ok a >>= f : Except Buf β) = f a := rfl

theorem error_bind {α β : Type} (b : Buf) (f : α → Except Buf β) :
    (Except.error b >>= f : Except Buf β) = Except.error b := rfl

theorem rd_ok {b : Buf} {l : List Nat} {i : Nat} (h : i < l.length) :
    rd b l i = .ok (l.getD i 0) := if_pos h

theorem rd_inv {b : Buf} {l : List Nat} {i p : Nat} (h : rd b l i = .ok p) :
    i < l.length ∧ p = l.getD i 0 := by
  unfold rd at h
  split at h
  · exact ⟨by assumption, (Except.ok.inj h).symm⟩
  · exact absurd h (by simp)

theorem wr_ok {b : Buf} {l : List Nat} {i v : Nat} (h : i < l.length) :
    wr b l i v = .ok (l.set i v) := if_pos h

theorem wr_inv {b : Buf} {l l' : List Nat} {i v : Nat} (h : wr b l i v = .ok l') :
    i < l.length ∧ l' = l.set i v := by
  unfold wr at h
  split at h
  · exact ⟨by assumption, (Except.ok.inj h).symm⟩
  · exact absurd h (by simp)

theorem getD_set_self : ∀ (l : List Nat) (i v : Nat), i < l.length →
    (l.set i v).getD i 0 = v
  | [], i, v, h => absurd h (by simp)
  | _ :: _, 0, _, _ => rfl
  | _ :: l, i + 1, v, h => getD_set_self l i v (by simpa using h)

theorem getD_set_ne : ∀ (l : List Nat) (i j v : Nat), i ≠ j →
    (l.set i v).getD j 0 = l.getD j 0
  | [], _, _, _, _ => rfl
  | _ :: _, 0, 0, _, h => absurd rfl h
  | _ :: _, 0, _ + 1, _, _ => rfl
  | _ :: _, _ + 1, 0, _, _ => rfl
  | _ :: l, i + 1, j + 1, v, h =>
      getD_set_ne l i j v (fun e => h (by rw [e]))

theorem getD_past_end : ∀ (l : List Nat) (i : Nat), l.length ≤ i → l.getD i 0 = 0
  | [], i, _ => by cases i <;> rfl
  | _ :: _, 0, h => by simp at h
  | _ :: l, i + 1, h => getD_past_end l i (by simpa using h)

theorem getD_mem : ∀ (l : List Nat) (i : Nat), i < l.length → l.getD i 0 ∈ l
  | [], _, h => absurd h (by simp)
  | a :: l, 0, _ => List.mem_cons_self a l
  | a :: l, i + 1, h => List.mem_cons_of_mem a (getD_mem l i (by simpa using h))

theorem getD_bound {l : List Nat} {P : Nat → Prop} (h0 : P 0)
    (h : ∀ a ∈ l, P a) (i : Nat) : P (l.getD i 0) := by
  by_cases hi : i < l.length
  · exact h _ (getD_mem l i hi)
  · rw [getD_past_end l i (le_of_not_lt hi)]
    exact h0

theorem mem_of_mem_set : ∀ (l : List Nat) (i v a : Nat), a ∈ l.set i v →
    a ∈ l ∨ a = v
  | [], _, _, _, h => .inl (by simpa using h)
  | b :: l, 0, v, a, h => by
      rcases List.mem_cons.1 h with h | h
      · exact .inr h
      · exact .inl (List.mem_cons_of_mem b h)
  | b :: l, i + 1, v, a, h => by
      rcases List.mem_cons.1 h with h | h
      · exact .inl (h ▸ List.mem_cons_self b l)
      · rcases mem_of_mem_set l i v a h with h | h
        · exact .inl (List.mem_cons_of_mem b h)
        · exact .inr h

theorem eq_of_getD : ∀ (l1 l2 : List Nat), l1.length = l2.length →
    (∀ i, l1.getD i 0 = l2.getD i 0) → l1 = l2
  | [], [], _, _ => rfl
  | [], _ :: _, h, _ => by simp at h
  | _ :: _, [], h, _ => by simp at h
  | a :: l1, b :: l2, h, hg => by
      have h1 : a = b := hg 0
      have h2 : l1 = l2 := eq_of_getD l1 l2 (by simpa using h) (fun i => hg (i + 1))
      rw [h1, h2]

theorem getD_replicate : ∀ (n i : Nat), (List.replicate n (0 : Nat)).getD i 0 = 0
  | 0, i => by cases i <;> rfl
  | _ + 1, 0 => rfl
  | n + 1, i + 1 => getD_replicate n i

theorem colIdx_lt (x y yline c : Nat) : colIdx x y yline c < 2048 := by
  unfold colIdx
  omega

theorem rd_error_inv {b b' : Buf} {l : List Nat} {i : Nat}
    (h : rd b l i = .error b') : b' = b := by
  unfold rd at h
  split at h
  · exact absurd h (by simp)
  · exact (Except.error.inj h).symm

theorem bind_ok_inv {α β : Type} {m : Except Buf α} {f : α → Except Buf β} {b : β}
    (h : (m >>= f) = .ok b) : ∃ a, m = .ok a ∧ f a = .ok b := by
  cases m with
  | error e => rw [error_bind] at h; exact absurd h (by simp)
  | ok a => exact ⟨a, rfl, h⟩

/-! ### Structural lemmas about the sprite-drawing loops -/

theorem drawColsAux_pres (pixel x y yline : Nat) :
    ∀ (n xline : Nat) (gfx : List Nat) (vf : Nat) (g : List Nat) (v : Nat),
    drawColsAux pixel x y yline n xline gfx vf = .ok (g, v) →
    (∀ a ∈ gfx, a = 0 ∨ a = 1) → (vf = 0 ∨ vf = 1) →
    g.length = gfx.length ∧ (∀ a ∈ g, a = 0 ∨ a = 1) ∧ (v = 0 ∨ v = 1) := by
  intro n
  induction n with
  | zero =>
    intro xline gfx vf g v he hb hv
    simp only [drawColsAux] at he
    injection he with he1
    injection he1 with h1 h2
    subst h1; subst h2
    exact ⟨rfl, hb, hv⟩
  | succ n ih =>
    intro xline gfx vf g v he hb hv
    simp only [drawColsAux] at he
    by_cases hbit : pixel &&& (0x80 >>> xline) ≠ 0
    · rw [if_pos hbit] at he
      obtain ⟨p, hrd, he⟩ := bind_ok_inv he
      obtain ⟨gfx1, hwr, he⟩ := bind_ok_inv he
      obtain ⟨hidx, rfl⟩ := rd_inv hrd
      obtain ⟨-, rfl⟩ := wr_inv hwr
      have hp : gfx.getD (colIdx x y yline xline) 0 = 0 ∨
          gfx.getD (colIdx x y yline xline) 0 = 1 :=
        getD_bound (Or.inl rfl) hb _
      have hb1 : ∀ a ∈ gfx.set (colIdx x y yline xline)
          ((gfx.getD (colIdx x y yline xline) 0 ^^^ 1) % 256), a = 0 ∨ a = 1 := by
        intro a ha
        rcases mem_of_mem_set _ _ _ _ ha with ha | rfl
        · exact hb a ha
        · rcases hp with hp | hp <;> rw [hp] <;> simp
      have hv1 : (if gfx.getD (colIdx x y yline xline) 0 = 1 then 1 else vf) = 0 ∨
          (if gfx.getD (colIdx x y yline xline) 0 = 1 then 1 else vf) = 1 := by
        split
        · exact Or.inr rfl
        · exact hv
      have hrec := ih (xline + 1) _ _ g v he hb1 hv1
      refine ⟨?_, hrec.2.1, hrec.2.2⟩
      rw [hrec.1, List.length_set]
    · rw [if_neg hbit] at he
      exact ih (xline + 1) gfx vf g v he hb hv

theorem drawColsAux_ok (pixel x y yline : Nat) :
    ∀ (n xline : Nat) (gfx : List Nat) (vf : Nat), gfx.length = 2048 →
    ∃ g v, drawColsAux pixel x y yline n xline gfx vf = .ok (g, v) ∧
      g.length = 2048 := by
  intro n
  induction n with
  | zero => intro xline gfx vf hg; exact ⟨gfx, vf, rfl, hg⟩
  | succ n ih =>
    intro xline gfx vf hg
    by_cases hbit : pixel &&& (0x80 >>> xline) ≠ 0
    · have hidx : colIdx x y yline xline < gfx.length := by
        rw [hg]; exact colIdx_lt x y yline xline
      obtain ⟨g, v, he, hgl⟩ := ih (xline + 1)
        (gfx.set (colIdx x y yline xline)
          ((gfx.getD (colIdx x y yline xline) 0 ^^^ 1) % 256))
        (if gfx.getD (colIdx x y yline xline) 0 = 1 then 1 else vf)
        (by rw [List.length_set]; exact hg)
      refine ⟨g, v, ?_, hgl⟩
      simp only [drawColsAux]
      rw [if_pos hbit, rd_ok hidx, ok_bind, wr_ok hidx, ok_bind]
      exact he
    · obtain ⟨g, v, he, hgl⟩ := ih (xline + 1) gfx vf hg
      refine ⟨g, v, ?_, hgl⟩
      simp only [drawColsAux]
      rw [if_neg hbit]
      exact he

theorem drawRowsAux_pres (mem : List Nat) (I x y : Nat) :
    ∀ (n yline : Nat) (gfx : List Nat) (vf : Nat) (g : List Nat) (v : Nat),
    drawRowsAux mem I x y n yline gfx vf = .ok (g, v) →
    (∀ a ∈ gfx, a = 0 ∨ a = 1) → (vf = 0 ∨ vf = 1) →
    g.length = gfx.length ∧ (∀ a ∈ g, a = 0 ∨ a = 1) ∧ (v = 0 ∨ v = 1) := by
  intro n
  induction n with
  | zero =>
    intro yline gfx vf g v he hb hv
    simp only [drawRowsAux] at he
    injection he with he1
    injection he1 with h1 h2
    subst h1; subst h2
    exact ⟨rfl, hb, hv⟩
  | succ n ih =>
    intro yline gfx vf g v he hb hv
    simp only [drawRowsAux] at he
    obtain ⟨pixel, hrd, he⟩ := bind_ok_inv he
    obtain ⟨pr, hcols, he⟩ := bind_ok_inv he
    obtain ⟨g1, v1⟩ := pr
    obtain ⟨h1, h2, h3⟩ := drawColsAux_pres pixel x y yline 8 0 gfx vf g1 v1 hcols hb hv
    have hrec := ih (yline + 1) g1 v1 g v he h2 h3
    exact ⟨hrec.1.trans h1, hrec.2⟩

theorem drawRowsAux_no_gfx (mem : List Nat) (I x y : Nat) :
    ∀ (n yline : Nat) (gfx : List Nat) (vf : Nat), gfx.length = 2048 →
    drawRowsAux mem I x y n yline gfx vf ≠ .error .gfx := by
  intro n
  induction n with
  | zero => intro yline gfx vf _; simp [drawRowsAux]
  | succ n ih =>
    intro yline gfx vf hg
    simp only [drawRowsAux]
    cases hrd : rd .mem mem (I + yline) with
    | error b =>
      rw [error_bind]
      rw [rd_error_inv hrd]
      simp
    | ok pixel =>
      rw [ok_bind]
      obtain ⟨g, v, hcols, hgl⟩ := drawColsAux_ok pixel x y yline 8 0 gfx vf hg
      rw [hcols, ok_bind]
      exact ih (yline + 1) g v hgl

/-! ### Preservation of well-formedness by each opcode case -/

theorem wf_applyTimers {s : Chip8} (h : WF s) : WF (applyTimers s) := by
  obtain ⟨hm, hmb, hV, hVb, hg, hgb, hstk, hstkb, hkey, hsp, hpc, hI, hdt, hst⟩ := h
  simp only [applyTimers]
  split <;> split <;>
    exact ⟨hm, hmb, hV, hVb, hg, hgb, hstk, hstkb, hkey, hsp, hpc, hI,
      by first | exact hdt | exact Nat.lt_of_le_of_lt (Nat.sub_le _ _) hdt,
      by first | exact hst | exact Nat.lt_of_le_of_lt (Nat.sub_le _ _) hst⟩

theorem wf_exec0 {s : Chip8} {op : Nat} {t : Chip8}
    (h : WF s) (he : exec0 s op = .ok t) : WF t := by
  obtain ⟨hm, hmb, hV, hVb, hg, hgb, hstk, hstkb, hkey, hsp, hpc, hI, hdt, hst⟩ := h
  simp only [exec0] at he
  split at he
  · injection he with he1
    subst he1
    refine ⟨hm, hmb, hV, hVb, ?_, ?_, hstk, hstkb, hkey, hsp, ?_, hI, hdt, hst⟩
    · dsimp only
      rw [List.length_replicate]
    · dsimp only
      intro a ha
      exact Or.inl (List.eq_of_mem_replicate ha)
    · dsimp only
      omega
  · split at he
    · obtain ⟨ret, hrd, he⟩ := bind_ok_inv he
      injection he with he1
      subst he1
      obtain ⟨hsp1, rfl⟩ := rd_inv hrd
      rw [hstk] at hsp1
      exact ⟨hm, hmb, hV, hVb, hg, hgb, hstk, hstkb, hkey, by dsimp only; omega,
        by dsimp only; omega, hI, hdt, hst⟩
    · injection he with he1
      subst he1
      exact ⟨hm, hmb, hV, hVb, hg, hgb, hstk, hstkb, hkey, hsp,
        by dsimp only; omega, hI, hdt, hst⟩

theorem wf_exec1NNN {s : Chip8} {op : Nat} (h : WF s) : WF (exec1NNN s op) := by
  obtain ⟨hm, hmb, hV, hVb, hg, hgb, hstk, hstkb, hkey, hsp, hpc, hI, hdt, hst⟩ := h
  have hnnn : op &&& 0x0FFF ≤ 0x0FFF := Nat.and_le_right
  exact ⟨hm, hmb, hV, hVb, hg, hgb, hstk, hstkb, hkey, hsp,
    by dsimp only [exec1NNN]; omega, hI, hdt, hst⟩

theorem wf_exec2NNN {s : Chip8} {op : Nat} {t : Chip8}
    (h : WF s) (he : exec2NNN s op = .ok t) : WF t := by
  obtain ⟨hm, hmb, hV, hVb, hg, hgb, hstk, hstkb, hkey, hsp, hpc, hI, hdt, hst⟩ := h
  simp only [exec2NNN] at he
  obtain ⟨stack1, hwr, he⟩ := bind_ok_inv he
  injection he with he1
  subst he1
  obtain ⟨hsp1, rfl⟩ := wr_inv hwr
  rw [hstk] at hsp1
  have hnnn : op &&& 0x0FFF ≤ 0x0FFF := Nat.and_le_right
  refine ⟨hm, hmb, hV, hVb, hg, hgb, ?_, ?_, hkey, by dsimp only; omega,
    by dsimp only; omega, hI, hdt, hst⟩
  · dsimp only
    rw [List.length_set]
    exact hstk
  · dsimp only
    intro a ha
    rcases mem_of_mem_set _ _ _ _ ha with ha | rfl
    · exact hstkb a ha
    · exact hpc

theorem wf_exec3XNN {s : Chip8} {op : Nat} (h : WF s) : WF (exec3XNN s op) := by
  obtain ⟨hm, hmb, hV, hVb, hg, hgb, hstk, hstkb, hkey, hsp, hpc, hI, hdt, hst⟩ := h
  simp only [exec3XNN]
  split <;>
    exact ⟨hm, hmb, hV, hVb, hg, hgb, hstk, hstkb, hkey, hsp,
      by dsimp only; omega, hI, hdt, hst⟩

theorem wf_exec4XNN {s : Chip8} {op : Nat} (h : WF s) : WF (exec4XNN s op) := by
  obtain ⟨hm, hmb, hV, hVb, hg, hgb, hstk, hstkb, hkey, hsp, hpc, hI, hdt, hst⟩ := h
  simp only [exec4XNN]
  split <;>
    exact ⟨hm, hmb, hV, hVb, hg, hgb, hstk, hstkb, hkey, hsp,
      by dsimp only; omega, hI, hdt, hst⟩

theorem wf_execCXNN {s : Chip8} {op r : Nat} (h : WF s) : WF (execCXNN s op r) := by
  obtain ⟨hm, hmb, hV, hVb, hg, hgb, hstk, hstkb, hkey, hsp, hpc, hI, hdt, hst⟩ := h
  refine ⟨hm, hmb, ?_, ?_, hg, hgb, hstk, hstkb, hkey, hsp,
    by dsimp only [execCXNN]; omega, hI, hdt, hst⟩
  · dsimp only [execCXNN]
    rw [List.length_set]
    exact hV
  · dsimp only [execCXNN]
    intro a ha
    rcases mem_of_mem_set _ _ _ _ ha with ha | rfl
    · exact hVb a ha
    · have h1 : r % 256 &&& (op &&& 0x00FF) ≤ r % 256 := Nat.and_le_left
      omega

theorem wf_execEXNN {s : Chip8} {op : Nat} {t : Chip8}
    (h : WF s) (he : execEXNN s op = .ok t) : WF t := by
  obtain ⟨hm, hmb, hV, hVb, hg, hgb, hstk, hstkb, hkey, hsp, hpc, hI, hdt, hst⟩ := h
  simp only [execEXNN] at he
  split at he
  · obtain ⟨k, hrd, he⟩ := bind_ok_inv he
    split at he <;>
      (injection he with he1; subst he1;
       exact ⟨hm, hmb, hV, hVb, hg, hgb, hstk, hstkb, hkey, hsp,
         by dsimp only; omega, hI, hdt, hst⟩)
  · split at he
    · obtain ⟨k, hrd, he⟩ := bind_ok_inv he
      split at he <;>
        (injection he with he1; subst he1;
         exact ⟨hm, hmb, hV, hVb, hg, hgb, hstk, hstkb, hkey, hsp,
           by dsimp only; omega, hI, hdt, hst⟩)
    · injection he with he1
      subst he1
      exact ⟨hm, hmb, hV, hVb, hg, hgb, hstk, hstkb, hkey, hsp,
        by dsimp only; omega, hI, hdt, hst⟩

theorem wf_execFXNN {s : Chip8} {op : Nat} (h : WF s) : WF (execFXNN s op) := by
  obtain ⟨hm, hmb, hV, hVb, hg, hgb, hstk, hstkb, hkey, hsp, hpc, hI, hdt, hst⟩ := h
  simp only [execFXNN]
  split
  · refine ⟨hm, hmb, ?_, ?_, hg, hgb, hstk, hstkb, hkey, hsp,
      by dsimp only; omega, hI, hdt, hst⟩
    · dsimp only
      rw [List.length_set]
      exact hV
    · dsimp only
      intro a ha
      rcases mem_of_mem_set _ _ _ _ ha with ha | rfl
      · exact hVb a ha
      · exact hdt
  · split
    · exact ⟨hm, hmb, hV, hVb, hg, hgb, hstk, hstkb, hkey, hsp,
        by dsimp only; omega, hI, by dsimp only; exact getD_bound (by omega) hVb _, hst⟩
    · split
      · exact ⟨hm, hmb, hV, hVb, hg, hgb, hstk, hstkb, hkey, hsp,
          by dsimp only; omega, hI, hdt,
          by dsimp only; exact getD_bound (by omega) hVb _⟩
      · exact ⟨hm, hmb, hV, hVb, hg, hgb, hstk, hstkb, hkey, hsp,
          by dsimp only; omega, hI, hdt, hst⟩

theorem wf_exec6XNN {s : Chip8} {op : Nat} (h : WF s) : WF (exec6XNN s op) := by
  obtain ⟨hm, hmb, hV, hVb, hg, hgb, hstk, hstkb, hkey, hsp, hpc, hI, hdt, hst⟩ := h
  refine ⟨hm, hmb, ?_, ?_, hg, hgb, hstk, hstkb, hkey, hsp,
    by dsimp only [exec6XNN]; omega, hI, hdt, hst⟩
  · dsimp only [exec6XNN]
    rw [List.length_set]
    exact hV
  · dsimp only [exec6XNN]
    intro a ha
    rcases mem_of_mem_set _ _ _ _ ha with ha | rfl
    · exact hVb a ha
    · have h1 : op &&& 0x00FF ≤ 0x00FF := Nat.and_le_right
      omega

theorem wf_exec7XNN {s : Chip8} {op : Nat} (h : WF s) : WF (exec7XNN s op) := by
  obtain ⟨hm, hmb, hV, hVb, hg, hgb, hstk, hstkb, hkey, hsp, hpc, hI, hdt, hst⟩ := h
  refine ⟨hm, hmb, ?_, ?_, hg, hgb, hstk, hstkb, hkey, hsp,
    by dsimp only [exec7XNN]; omega, hI, hdt, hst⟩
  · dsimp only [exec7XNN]
    rw [List.length_set]
    exact hV
  · dsimp only [exec7XNN]
    intro a ha
    rcases mem_of_mem_set _ _ _ _ ha with ha | rfl
    · exact hVb a ha
    · omega

theorem wf_exec8XYN {s : Chip8} {op : Nat} (h : WF s) : WF (exec8XYN s op) := by
  obtain ⟨hm, hmb, hV, hVb, hg, hgb, hstk, hstkb, hkey, hsp, hpc, hI, hdt, hst⟩ := h
  simp only [exec8XYN]
  split
  · refine ⟨hm, hmb, ?_, ?_, hg, hgb, hstk, hstkb, hkey, hsp,
      by dsimp only; omega, hI, hdt, hst⟩
    · dsimp only
      rw [List.length_set]
      exact hV
    · dsimp only
      intro a ha
      rcases mem_of_mem_set _ _ _ _ ha with ha | rfl
      · exact hVb a ha
      · exact getD_bound (by omega) hVb _
  · split
    · refine ⟨hm, hmb, ?_, ?_, hg, hgb, hstk, hstkb, hkey, hsp,
        by dsimp only; omega, hI, hdt, hst⟩
      · dsimp only
        rw [List.length_set]
        exact hV
      · dsimp only
        intro a ha
        rcases mem_of_mem_set _ _ _ _ ha with ha | rfl
        · exact hVb a ha
        · omega
    · split
      · refine ⟨hm, hmb, ?_, ?_, hg, hgb, hstk, hstkb, hkey, hsp,
          by dsimp only; omega, hI, hdt, hst⟩
        · dsimp only
          rw [List.length_set]
          exact hV
        · dsimp only
          intro a ha
          rcases mem_of_mem_set _ _ _ _ ha with ha | rfl
          · exact hVb a ha
          · omega
      · split
        · refine ⟨hm, hmb, ?_, ?_, hg, hgb, hstk, hstkb, hkey, hsp,
            by dsimp only; omega, hI, hdt, hst⟩
          · dsimp only
            rw [List.length_set]
            exact hV
          · dsimp only
            intro a ha
            rcases mem_of_mem_set _ _ _ _ ha with ha | rfl
            · exact hVb a ha
            · omega
        · split
          · refine ⟨hm, hmb, ?_, ?_, hg, hgb, hstk, hstkb, hkey, hsp,
              by dsimp only; omega, hI, hdt, hst⟩
            · dsimp only
              split <;> (rw [List.length_set, List.length_set]; exact hV)
            · dsimp only
              have hand : (s.V.getD ((op &&& 0x0F00) >>> 8) 0 +
                  s.V.getD ((op &&& 0x00F0) >>> 4) 0) &&& 0xFF ≤ 0xFF :=
                Nat.and_le_right
              split <;>
                (intro a ha;
                 rcases mem_of_mem_set _ _ _ _ ha with ha | rfl;
                 · rcases mem_of_mem_set _ _ _ _ ha with ha | rfl
                   · exact hVb a ha
                   · omega
                 · omega)
          · split
            · refine ⟨hm, hmb, ?_, ?_, hg, hgb, hstk, hstkb, hkey, hsp,
                by dsimp only; omega, hI, hdt, hst⟩
              · dsimp only
                split <;> (rw [List.length_set, List.length_set]; exact hV)
              · dsimp only
                split <;>
                  (intro a ha;
                   rcases mem_of_mem_set _ _ _ _ ha with ha | rfl;
                   · rcases mem_of_mem_set _ _ _ _ ha with ha | rfl
                     · exact hVb a ha
                     · omega
                   · omega)
            · exact ⟨hm, hmb, hV, hVb, hg, hgb, hstk, hstkb, hkey, hsp,
                by dsimp only; omega, hI, hdt, hst⟩

theorem wf_execANNN {s : Chip8} {op : Nat} (h : WF s) : WF (execANNN s op) := by
  obtain ⟨hm, hmb, hV, hVb, hg, hgb, hstk, hstkb, hkey, hsp, hpc, hI, hdt, hst⟩ := h
  have hnnn : op &&& 0x0FFF ≤ 0x0FFF := Nat.and_le_right
  exact ⟨hm, hmb, hV, hVb, hg, hgb, hstk, hstkb, hkey, hsp,
    by dsimp only [execANNN]; omega, by dsimp only [execANNN]; omega, hdt, hst⟩

theorem wf_execDXYN {s : Chip8} {op : Nat} {t : Chip8}
    (h : WF s) (he : execDXYN s op = .ok t) : WF t := by
  obtain ⟨hm, hmb, hV, hVb, hg, hgb, hstk, hstkb, hkey, hsp, hpc, hI, hdt, hst⟩ := h
  simp only [execDXYN, drawSprite] at he
  obtain ⟨pr, hdraw, he⟩ := bind_ok_inv he
  injection he with he1
  subst he1
  obtain ⟨g1, v1⟩ := pr
  obtain ⟨h1, h2, h3⟩ := drawRowsAux_pres s.memory s.I
    (s.V.getD ((op &&& 0x0F00) >>> 8) 0) (s.V.getD ((op &&& 0x00F0) >>> 4) 0)
    (op &&& 0x000F) 0 s.gfx 0 g1 v1 hdraw hgb (Or.inl rfl)
  refine ⟨hm, hmb, ?_, ?_, h1.trans hg, h2, hstk, hstkb, hkey, hsp,
    by dsimp only; omega, hI, hdt, hst⟩
  · dsimp only
    rw [List.length_set]
    exact hV
  · dsimp only
    intro a ha
    rcases mem_of_mem_set _ _ _ _ ha with ha | rfl
    · exact hVb a ha
    · omega

theorem wf_execDefault {s : Chip8} (h : WF s) : WF (execDefault s) := by
  obtain ⟨hm, hmb, hV, hVb, hg, hgb, hstk, hstkb, hkey, hsp, hpc, hI, hdt, hst⟩ := h
  exact ⟨hm, hmb, hV, hVb, hg, hgb, hstk, hstkb, hkey, hsp,
    by dsimp only [execDefault]; omega, hI, hdt, hst⟩

/-! ### The step function never turns `draw_flag` off -/

theorem applyTimers_df (c : Chip8) : (applyTimers c).draw_flag = c.draw_flag := by
  simp only [applyTimers]
  split <;> split <;> rfl

theorem df_exec0 {s : Chip8} {op : Nat} {t : Chip8}
    (h : s.draw_flag = true) (he : exec0 s op = .ok t) : t.draw_flag = true := by
  simp only [exec0] at he
  split at he
  · injection he with he1; subst he1; rfl
  · split at he
    · obtain ⟨ret, hrd, he⟩ := bind_ok_inv he
      injection he with he1; subst he1; exact h
    · injection he with he1; subst he1; exact h

theorem df_exec2NNN {s : Chip8} {op : Nat} {t : Chip8}
    (h : s.draw_flag = true) (he : exec2NNN s op = .ok t) : t.draw_flag = true := by
  simp only [exec2NNN] at he
  obtain ⟨stack1, hwr, he⟩ := bind_ok_inv he
  injection he with he1; subst he1; exact h

theorem df_execEXNN {s : Chip8} {op : Nat} {t : Chip8}
    (h : s.draw_flag = true) (he : execEXNN s op = .ok t) : t.draw_flag = true := by
  simp only [execEXNN] at he
  split at he
  · obtain ⟨k, hrd, he⟩ := bind_ok_inv he
    split at he <;> (injection he with he1; subst he1; exact h)
  · split at he
    · obtain ⟨k, hrd, he⟩ := bind_ok_inv he
      split at he <;> (injection he with he1; subst he1; exact h)
    · injection he with he1; subst he1; exact h

theorem df_execDXYN {s : Chip8} {op : Nat} {t : Chip8}
    (he : execDXYN s op = .ok t) : t.draw_flag = true := by
  simp only [execDXYN] at he
  obtain ⟨pr, hdraw, he⟩ := bind_ok_inv he
  injection he with he1; subst he1; rfl

theorem df_exec1NNN (s : Chip8) (op : Nat) : (exec1NNN s op).draw_flag = s.draw_flag :=
  rfl

theorem df_exec3XNN (s : Chip8) (op : Nat) : (exec3XNN s op).draw_flag = s.draw_flag := by
  simp only [exec3XNN]
  split <;> rfl

theorem df_exec4XNN (s : Chip8) (op : Nat) : (exec4XNN s op).draw_flag = s.draw_flag := by
  simp only [exec4XNN]
  split <;> rfl

theorem df_execCXNN (s : Chip8) (op r : Nat) : (execCXNN s op r).draw_flag = s.draw_flag :=
  rfl

theorem df_execFXNN (s : Chip8) (op : Nat) : (execFXNN s op).draw_flag = s.draw_flag := by
  simp only [execFXNN]
  split <;> (try split) <;> (try split) <;> rfl

theorem df_exec6XNN (s : Chip8) (op : Nat) : (exec6XNN s op).draw_flag = s.draw_flag :=
  rfl

theorem df_exec7XNN (s : Chip8) (op : Nat) : (exec7XNN s op).draw_flag = s.draw_flag :=
  rfl

theorem df_exec8XYN (s : Chip8) (op : Nat) : (exec8XYN s op).draw_flag = s.draw_flag := by
  simp only [exec8XYN]
  split <;> (try split) <;> (try split) <;> (try split) <;> (try split) <;>
    (try split) <;> rfl

theorem df_execANNN (s : Chip8) (op : Nat) : (execANNN s op).draw_flag = s.draw_flag :=
  rfl

theorem df_execDefault (s : Chip8) : (execDefault s).draw_flag = s.draw_flag :=
  rfl


theorem wf_emulate_cycle {s : Chip8} {r : Nat} {t : Chip8}
    (h : WF s) (he : emulate_cycle s r = .ok t) : WF t := by
  simp only [emulate_cycle] at he
  obtain ⟨b1, h1, he⟩ := bind_ok_inv he
  obtain ⟨b2, h2, he⟩ := bind_ok_inv he

  by_cases hc0 : (b1 <<< 8 ||| b2) &&& 0xF000 = 0x0000
  · rw [if_pos hc0] at he
    obtain ⟨c1, hx, he2⟩ := bind_ok_inv he
    injection he2 with he3
    subst he3
    apply wf_applyTimers
    exact wf_exec0 h hx
  rw [if_neg hc0] at he
  by_cases hc1 : (b1 <<< 8 ||| b2) &&& 0xF000 = 0x1000
  · rw [if_pos hc1] at he
    obtain ⟨c1, hx, he2⟩ := bind_ok_inv he
    injection he2 with he3
    subst he3
    apply wf_applyTimers
    injection hx with hx1
    subst hx1
    exact wf_exec1NNN h
  rw [if_neg hc1] at he
  by_cases hc2 : (b1 <<< 8 ||| b2) &&& 0xF000 = 0x2000
  · rw [if_pos hc2] at he
    obtain ⟨c1, hx, he2⟩ := bind_ok_inv he
    injection he2 with he3
    subst he3
    apply wf_applyTimers
    exact wf_exec2NNN h hx
  rw [if_neg hc2] at he
  by_cases hc3 : (b1 <<< 8 ||| b2) &&& 0xF000 = 0x3000
  · rw [if_pos hc3] at he
    obtain ⟨c1, hx, he2⟩ := bind_ok_inv he
    injection he2 with he3
    subst he3
    apply wf_applyTimers
    injection hx with hx1
    subst hx1
    exact wf_exec3XNN h
  rw [if_neg hc3] at he
  by_cases hc4 : (b1 <<< 8 ||| b2) &&& 0xF000 = 0x4000
  · rw [if_pos hc4] at he
    obtain ⟨c1, hx, he2⟩ := bind_ok_inv he
    injection he2 with he3
    subst he3
    apply wf_applyTimers
    injection hx with hx1
    subst hx1
    exact wf_exec4XNN h
  rw [if_neg hc4] at he
  by_cases hc5 : (b1 <<< 8 ||| b2) &&& 0xF000 = 0xC000
  · rw [if_pos hc5] at he
    obtain ⟨c1, hx, he2⟩ := bind_ok_inv he
    injection he2 with he3
    subst he3
    apply wf_applyTimers
    injection hx with hx1
    subst hx1
    exact wf_execCXNN h
  rw [if_neg hc5] at he
  by_cases hc6 : (b1 <<< 8 ||| b2) &&& 0xF000 = 0xE000
  · rw [if_pos hc6] at he
    obtain ⟨c1, hx, he2⟩ := bind_ok_inv he
    injection he2 with he3
    subst he3
    apply wf_applyTimers
    exact wf_execEXNN h hx
  rw [if_neg hc6] at he
  by_cases hc7 : (b1 <<< 8 ||| b2) &&& 0xF000 = 0xF000
  · rw [if_pos hc7] at he
    obtain ⟨c1, hx, he2⟩ := bind_ok_inv he
    injection he2 with he3
    subst he3
    apply wf_applyTimers
    injection hx with hx1
    subst hx1
    exact wf_execFXNN h
  rw [if_neg hc7] at he
  by_cases hc8 : (b1 <<< 8 ||| b2) &&& 0xF000 = 0x6000
  · rw [if_pos hc8] at he
    obtain ⟨c1, hx, he2⟩ := bind_ok_inv he
    injection he2 with he3
    subst he3
    apply wf_applyTimers
    injection hx with hx1
    subst hx1
    exact wf_exec6XNN h
  rw [if_neg hc8] at he
  by_cases hc9 : (b1 <<< 8 ||| b2) &&& 0xF000 = 0x7000
  · rw [if_pos hc9] at he
    obtain ⟨c1, hx, he2⟩ := bind_ok_inv he
    injection he2 with he3
    subst he3
    apply wf_applyTimers
    injection hx with hx1
    subst hx1
    exact wf_exec7XNN h
  rw [if_neg hc9] at he
  by_cases hc10 : (b1 <<< 8 ||| b2) &&& 0xF000 = 0x8000
  · rw [if_pos hc10] at he
    obtain ⟨c1, hx, he2⟩ := bind_ok_inv he
    injection he2 with he3
    subst he3
    apply wf_applyTimers
    injection hx with hx1
    subst hx1
    exact wf_exec8XYN h
  rw [if_neg hc10] at he
  by_cases hc11 : (b1 <<< 8 ||| b2) &&& 0xF000 = 0xA000
  · rw [if_pos hc11] at he
    obtain ⟨c1, hx, he2⟩ := bind_ok_inv he
    injection he2 with he3
    subst he3
    apply wf_applyTimers
    injection hx with hx1
    subst hx1
    exact wf_execANNN h
  rw [if_neg hc11] at he
  by_cases hc12 : (b1 <<< 8 ||| b2) &&& 0xF000 = 0xD000
  · rw [if_pos hc12] at he
    obtain ⟨c1, hx, he2⟩ := bind_ok_inv he
    injection he2 with he3
    subst he3
    apply wf_applyTimers
    exact wf_execDXYN h hx
  rw [if_neg hc12] at he
  obtain ⟨c1, hx, he2⟩ := bind_ok_inv he
  injection he2 with he3
  subst he3
  apply wf_applyTimers
  injection hx with hx1
  subst hx1
  exact wf_execDefault h

theorem df_emulate_cycle {s : Chip8} {r : Nat} {t : Chip8}
    (h : s.draw_flag = true) (he : emulate_cycle s r = .ok t) : t.draw_flag = true := by
  simp only [emulate_cycle] at he
  obtain ⟨b1, h1, he⟩ := bind_ok_inv he
  obtain ⟨b2, h2, he⟩ := bind_ok_inv he

  by_cases hc0 : (b1 <<< 8 ||| b2) &&& 0xF000 = 0x0000
  · rw [if_pos hc0] at he
    obtain ⟨c1, hx, he2⟩ := bind_ok_inv he
    injection he2 with he3
    subst he3
    rw [applyTimers_df]
    exact df_exec0 h hx
  rw [if_neg hc0] at he
  by_cases hc1 : (b1 <<< 8 ||| b2) &&& 0xF000 = 0x1000
  · rw [if_pos hc1] at he
    obtain ⟨c1, hx, he2⟩ := bind_ok_inv he
    injection he2 with he3
    subst he3
    rw [applyTimers_df]
    injection hx with hx1
    subst hx1
    rw [df_exec1NNN]
    exact h
  rw [if_neg hc1] at he
  by_cases hc2 : (b1 <<< 8 ||| b2) &&& 0xF000 = 0x2000
  · rw [if_pos hc2] at he
    obtain ⟨c1, hx, he2⟩ := bind_ok_inv he
    injection he2 with he3
    subst he3
    rw [applyTimers_df]
    exact df_exec2NNN h hx
  rw [if_neg hc2] at he
  by_cases hc3 : (b1 <<< 8 ||| b2) &&& 0xF000 = 0x3000
  · rw [if_pos hc3] at he
    obtain ⟨c1, hx, he2⟩ := bind_ok_inv he
    injection he2 with he3
    subst he3
    rw [applyTimers_df]
    injection hx with hx1
    subst hx1
    rw [df_exec3XNN]
    exact h
  rw [if_neg hc3] at he
  by_cases hc4 : (b1 <<< 8 ||| b2) &&& 0xF000 = 0x4000
  · rw [if_pos hc4] at he
    obtain ⟨c1, hx, he2⟩ := bind_ok_inv he
    injection he2 with he3
    subst he3
    rw [applyTimers_df]
    injection hx with hx1
    subst hx1
    rw [df_exec4XNN]
    exact h
  rw [if_neg hc4] at he
  by_cases hc5 : (b1 <<< 8 ||| b2) &&& 0xF000 = 0xC000
  · rw [if_pos hc5] at he
    obtain ⟨c1, hx, he2⟩ := bind_ok_inv he
    injection he2 with he3
    subst he3
    rw [applyTimers_df]
    injection hx with hx1
    subst hx1
    rw [df_execCXNN]
    exact h
  rw [if_neg hc5] at he
  by_cases hc6 : (b1 <<< 8 ||| b2) &&& 0xF000 = 0xE000
  · rw [if_pos hc6] at he
    obtain ⟨c1, hx, he2⟩ := bind_ok_inv he
    injection he2 with he3
    subst he3
    rw [applyTimers_df]
    exact df_execEXNN h hx
  rw [if_neg hc6] at he
  by_cases hc7 : (b1 <<< 8 ||| b2) &&& 0xF000 = 0xF000
  · rw [if_pos hc7] at he
    obtain ⟨c1, hx, he2⟩ := bind_ok_inv he
    injection he2 with he3
    subst he3
    rw [applyTimers_df]
    injection hx with hx1
    subst hx1
    rw [df_execFXNN]
    exact h
  rw [if_neg hc7] at he
  by_cases hc8 : (b1 <<< 8 ||| b2) &&& 0xF000 = 0x6000
  · rw [if_pos hc8] at he
    obtain ⟨c1, hx, he2⟩ := bind_ok_inv he
    injection he2 with he3
    subst he3
    rw [applyTimers_df]
    injection hx with hx1
    subst hx1
    rw [df_exec6XNN]
    exact h
  rw [if_neg hc8] at he
  by_cases hc9 : (b1 <<< 8 ||| b2) &&& 0xF000 = 0x7000
  · rw [if_pos hc9] at he
    obtain ⟨c1, hx, he2⟩ := bind_ok_inv he
    injection he2 with he3
    subst he3
    rw [applyTimers_df]
    injection hx with hx1
    subst hx1
    rw [df_exec7XNN]
    exact h
  rw [if_neg hc9] at he
  by_cases hc10 : (b1 <<< 8 ||| b2) &&& 0xF000 = 0x8000
  · rw [if_pos hc10] at he
    obtain ⟨c1, hx, he2⟩ := bind_ok_inv he
    injection he2 with he3
    subst he3
    rw [applyTimers_df]
    injection hx with hx1
    subst hx1
    rw [df_exec8XYN]
    exact h
  rw [if_neg hc10] at he
  by_cases hc11 : (b1 <<< 8 ||| b2) &&& 0xF000 = 0xA000
  · rw [if_pos hc11] at he
    obtain ⟨c1, hx, he2⟩ := bind_ok_inv he
    injection he2 with he3
    subst he3
    rw [applyTimers_df]
    injection hx with hx1
    subst hx1
    rw [df_execANNN]
    exact h
  rw [if_neg hc11] at he
  by_cases hc12 : (b1 <<< 8 ||| b2) &&& 0xF000 = 0xD000
  · rw [if_pos hc12] at he
    obtain ⟨c1, hx, he2⟩ := bind_ok_inv he
    injection he2 with he3
    subst he3
    rw [applyTimers_df]
    exact df_execDXYN hx
  rw [if_neg hc12] at he
  obtain ⟨c1, hx, he2⟩ := bind_ok_inv he
  injection he2 with he3
  subst he3
  rw [applyTimers_df]
  injection hx with hx1
  subst hx1
  rw [df_execDefault]
  exact h

/-! ### Which buffers each opcode case can overrun -/

theorem wr_error_inv {b b' : Buf} {l : List Nat} {i v : Nat}
    (h : wr b l i v = .error b') : b' = b := by
  unfold wr at h
  split at h
  · exact Except.noConfusion h
  · exact (Except.error.inj h).symm

theorem exec0_err {s : Chip8} {op : Nat} {b : Buf}
    (h : exec0 s op = .error b) : b = Buf.stk := by
  simp only [exec0] at h
  split at h
  · exact Except.noConfusion h
  · split at h
    · cases hrd : rd .stk s.stack ((s.sp + 65535) % 65536) with
      | error b1 =>
        rw [hrd, error_bind] at h
        rw [← Except.error.inj h]
        exact rd_error_inv hrd
      | ok ret => rw [hrd, ok_bind] at h; exact Except.noConfusion h
    · exact Except.noConfusion h

theorem exec2NNN_err {s : Chip8} {op : Nat} {b : Buf}
    (h : exec2NNN s op = .error b) : b = Buf.stk := by
  simp only [exec2NNN] at h
  cases hwr : wr .stk s.stack s.sp s.pc with
  | error b1 =>
    rw [hwr, error_bind] at h
    rw [← Except.error.inj h]
    exact wr_error_inv hwr
  | ok stack1 => rw [hwr, ok_bind] at h; exact Except.noConfusion h

theorem execEXNN_err {s : Chip8} {op : Nat} {b : Buf}
    (h : execEXNN s op = .error b) : b = Buf.key := by
  simp only [execEXNN] at h
  split at h
  · cases hrd : rd .key s.key (s.V.getD ((op &&& 0x0F00) >>> 8) 0) with
    | error b1 =>
      rw [hrd, error_bind] at h
      rw [← Except.error.inj h]
      exact rd_error_inv hrd
    | ok k =>
      rw [hrd, ok_bind] at h
      split at h <;> exact Except.noConfusion h
  · split at h
    · cases hrd : rd .key s.key (s.V.getD ((op &&& 0x0F00) >>> 8) 0) with
      | error b1 =>
        rw [hrd, error_bind] at h
        rw [← Except.error.inj h]
        exact rd_error_inv hrd
      | ok k =>
        rw [hrd, ok_bind] at h
        split at h <;> exact Except.noConfusion h
    · exact Except.noConfusion h

theorem execDXYN_no_gfx {s : Chip8} {op : Nat} (hg : s.gfx.length = 2048) :
    execDXYN s op ≠ .error Buf.gfx := by
  simp only [execDXYN, drawSprite]
  cases hdraw : drawRowsAux s.memory s.I (s.V.getD ((op &&& 0x0F00) >>> 8) 0)
      (s.V.getD ((op &&& 0x00F0) >>> 4) 0) (op &&& 0x000F) 0 s.gfx 0 with
  | error b =>
    rw [error_bind]
    intro heq
    rw [Except.error.inj heq] at hdraw
    exact drawRowsAux_no_gfx s.memory s.I _ _ _ 0 s.gfx 0 hg hdraw
  | ok pr =>
    rw [ok_bind]
    intro heq
    exact Except.noConfusion heq

theorem cycle_no_gfx {s : Chip8} (r : Nat) (h : WF s) :
    emulate_cycle s r ≠ .error Buf.gfx := by
  obtain ⟨hm, hmb, hV, hVb, hg, hgb, hstk, hstkb, hkey, hsp, hpc, hI, hdt, hst⟩ := h
  simp only [emulate_cycle]
  cases h1 : rd .mem s.memory s.pc with
  | error b =>
    rw [error_bind, rd_error_inv h1]
    intro heq
    exact absurd (Except.error.inj heq) (by simp)
  | ok b1 =>
  rw [ok_bind]
  cases h2 : rd .mem s.memory (s.pc + 1) with
  | error b =>
    rw [error_bind, rd_error_inv h2]
    intro heq
    exact absurd (Except.error.inj heq) (by simp)
  | ok b2 =>
  rw [ok_bind]
  by_cases hc0 : (b1 <<< 8 ||| b2) &&& 0xF000 = 0x0000
  · rw [if_pos hc0]
    cases hx : exec0 s (b1 <<< 8 ||| b2) with
    | error b =>
      rw [error_bind, exec0_err hx]
      intro heq
      exact absurd (Except.error.inj heq) (by simp)
    | ok c1 =>
      rw [ok_bind]
      intro heq
      exact Except.noConfusion heq
  rw [if_neg hc0]
  by_cases hc1 : (b1 <<< 8 ||| b2) &&& 0xF000 = 0x1000
  · rw [if_pos hc1, ok_bind]
    intro heq
    exact Except.noConfusion heq
  rw [if_neg hc1]
  by_cases hc2 : (b1 <<< 8 ||| b2) &&& 0xF000 = 0x2000
  · rw [if_pos hc2]
    cases hx : exec2NNN s (b1 <<< 8 ||| b2) with
    | error b =>
      rw [error_bind, exec2NNN_err hx]
      intro heq
      exact absurd (Except.error.inj heq) (by simp)
    | ok c1 =>
      rw [ok_bind]
      intro heq
      exact Except.noConfusion heq
  rw [if_neg hc2]
  by_cases hc3 : (b1 <<< 8 ||| b2) &&& 0xF000 = 0x3000
  · rw [if_pos hc3, ok_bind]
    intro heq
    exact Except.noConfusion heq
  rw [if_neg hc3]
  by_cases hc4 : (b1 <<< 8 ||| b2) &&& 0xF000 = 0x4000
  · rw [if_pos hc4, ok_bind]
    intro heq
    exact Except.noConfusion heq
  rw [if_neg hc4]
  by_cases hc5 : (b1 <<< 8 ||| b2) &&& 0xF000 = 0xC000
  · rw [if_pos hc5, ok_bind]
    intro heq
    exact Except.noConfusion heq
  rw [if_neg hc5]
  by_cases hc6 : (b1 <<< 8 ||| b2) &&& 0xF000 = 0xE000
  · rw [if_pos hc6]
    cases hx : execEXNN s (b1 <<< 8 ||| b2) with
    | error b =>
      rw [error_bind, execEXNN_err hx]
      intro heq
      exact absurd (Except.error.inj heq) (by simp)
    | ok c1 =>
      rw [ok_bind]
      intro heq
      exact Except.noConfusion heq
  rw [if_neg hc6]
  by_cases hc7 : (b1 <<< 8 ||| b2) &&& 0xF000 = 0xF000
  · rw [if_pos hc7, ok_bind]
    intro heq
    exact Except.noConfusion heq
  rw [if_neg hc7]
  by_cases hc8 : (b1 <<< 8 ||| b2) &&& 0xF000 = 0x6000
  · rw [if_pos hc8, ok_bind]
    intro heq
    exact Except.noConfusion heq
  rw [if_neg hc8]
  by_cases hc9 : (b1 <<< 8 ||| b2) &&& 0xF000 = 0x7000
  · rw [if_pos hc9, ok_bind]
    intro heq
    exact Except.noConfusion heq
  rw [if_neg hc9]
  by_cases hc10 : (b1 <<< 8 ||| b2) &&& 0xF000 = 0x8000
  · rw [if_pos hc10, ok_bind]
    intro heq
    exact Except.noConfusion heq
  rw [if_neg hc10]
  by_cases hc11 : (b1 <<< 8 ||| b2) &&& 0xF000 = 0xA000
  · rw [if_pos hc11, ok_bind]
    intro heq
    exact Except.noConfusion heq
  rw [if_neg hc11]
  by_cases hc12 : (b1 <<< 8 ||| b2) &&& 0xF000 = 0xD000
  · rw [if_pos hc12]
    cases hx : execDXYN s (b1 <<< 8 ||| b2) with
    | error b =>
      rw [error_bind]
      intro heq
      rw [Except.error.inj heq] at hx
      exact execDXYN_no_gfx hg hx
    | ok c1 =>
      rw [ok_bind]
      intro heq
      exact Except.noConfusion heq
  rw [if_neg hc12]
  rw [ok_bind]
  intro heq
  exact Except.noConfusion heq

/-! ### The loader produces a well-formed state; reachable states stay so -/

theorem writeBytes_length : ∀ (rom mem : List Nat) (a : Nat),
    (writeBytes mem a rom).length = mem.length
  | [], _, _ => rfl
  | b :: bs, mem, a => by
      show (writeBytes (mem.set a (b % 256)) (a + 1) bs).length = mem.length
      rw [writeBytes_length bs, List.length_set]

theorem writeBytes_bound : ∀ (rom mem : List Nat) (a : Nat),
    (∀ v ∈ mem, v < 256) → ∀ v ∈ writeBytes mem a rom, v < 256
  | [], _, _, hm => hm
  | b :: bs, mem, a, hm => by
      show ∀ v ∈ writeBytes (mem.set a (b % 256)) (a + 1) bs, v < 256
      apply writeBytes_bound bs
      intro v hv
      rcases mem_of_mem_set _ _ _ _ hv with hv | rfl
      · exact hm v hv
      · omega

theorem writeBytes_getD_below : ∀ (rom mem : List Nat) (a i : Nat), i < a →
    (writeBytes mem a rom).getD i 0 = mem.getD i 0
  | [], _, _, _, _ => rfl
  | b :: bs, mem, a, i, hi => by
      show (writeBytes (mem.set a (b % 256)) (a + 1) bs).getD i 0 = mem.getD i 0
      rw [writeBytes_getD_below bs _ _ _ (by omega), getD_set_ne _ _ _ _ (by omega)]

theorem writeBytes_getD_in : ∀ (rom mem : List Nat) (a j : Nat), j < rom.length →
    a + rom.length ≤ mem.length →
    (writeBytes mem a rom).getD (a + j) 0 = rom.getD j 0 % 256
  | [], _, _, j, hj, _ => absurd hj (by simp)
  | b :: bs, mem, a, 0, _, hlen => by
      show (writeBytes (mem.set a (b % 256)) (a + 1) bs).getD (a + 0) 0 = b % 256
      rw [writeBytes_getD_below bs _ _ _ (by omega)]
      have ha : a < mem.length := by
        simp only [List.length_cons] at hlen
        omega
      rw [Nat.add_zero, getD_set_self _ _ _ ha]
  | b :: bs, mem, a, j + 1, hj, hlen => by
      show (writeBytes (mem.set a (b % 256)) (a + 1) bs).getD (a + (j + 1)) 0 =
        bs.getD j 0 % 256
      have h1 : a + (j + 1) = (a + 1) + j := by omega
      rw [h1]
      apply writeBytes_getD_in bs
      · simp only [List.length_cons] at hj
        omega
      · rw [List.length_set]
        simp only [List.length_cons] at hlen
        omega

theorem wf_load {pre : Chip8} {rom : List Nat} {s : Chip8}
    (hdt : pre.delay_timer < 256) (hst : pre.sound_timer < 256)
    (h : load_rom (init_cpu pre) rom = some s) : WF s := by
  simp only [load_rom, init_cpu] at h
  split at h
  · exact Option.noConfusion h
  · injection h with h1
    subst h1
    refine ⟨?_, ?_, ?_, ?_, ?_, ?_, ?_, ?_, ?_, ?_, ?_, ?_, hdt, hst⟩
    · dsimp only
      rw [writeBytes_length, List.length_replicate]
    · dsimp only
      apply writeBytes_bound
      intro v hv
      rw [List.eq_of_mem_replicate hv]
      omega
    · dsimp only
      rw [List.length_replicate]
    · dsimp only
      intro a ha
      rw [List.eq_of_mem_replicate ha]
      omega
    · dsimp only
      rw [List.length_replicate]
    · dsimp only
      intro a ha
      exact Or.inl (List.eq_of_mem_replicate ha)
    · dsimp only
      rw [List.length_replicate]
    · dsimp only
      intro a ha
      rw [List.eq_of_mem_replicate ha]
      omega
    · dsimp only
      rw [List.length_replicate]
    · dsimp only
      omega
    · dsimp only
      omega
    · dsimp only
      omega

theorem reach_wf {s : Chip8} (h : Reach s) : WF s := by
  induction h with
  | load pre rom s hdt hst hl => exact wf_load hdt hst hl
  | step s r s1 hr he ih => exact wf_emulate_cycle ih he

/-! ### Functional characterization of the sprite draw (used for DXYN claims) -/

theorem colIdx_inj_same_row {x y yline : Nat} {c1 c2 : Nat}
    (h1 : c1 < 64) (h2 : c2 < 64)
    (h : colIdx x y yline c1 = colIdx x y yline c2) : c1 = c2 := by
  unfold colIdx at h
  omega

theorem colIdx_ne_rows {x y : Nat} {r1 r2 c1 c2 : Nat}
    (hr1 : r1 < 32) (hr2 : r2 < 32) (hne : r1 ≠ r2)
    (hy : (y + r1) % 32 ≠ (y + r2) % 32) :
    colIdx x y r1 c1 ≠ colIdx x y r2 c2 := by
  unfold colIdx
  omega

theorem row_mod_ne {y r1 r2 : Nat} (hr1 : r1 < 32) (hr2 : r2 < 32) (hne : r1 ≠ r2) :
    (y + r1) % 32 ≠ (y + r2) % 32 := by
  omega

theorem drawColsAux_char (pixel x y yline : Nat) :
    ∀ (n lo : Nat) (gfx : List Nat) (vf : Nat) (g : List Nat) (v : Nat),
    lo + n ≤ 8 → gfx.length = 2048 → (∀ a ∈ gfx, a = 0 ∨ a = 1) →
    drawColsAux pixel x y yline n lo gfx vf = .ok (g, v) →
    (∀ i, (colHit pixel x y yline lo n i → g.getD i 0 = gfx.getD i 0 ^^^ 1) ∧
          (¬ colHit pixel x y yline lo n i → g.getD i 0 = gfx.getD i 0)) ∧
    (v = 1 ↔ vf = 1 ∨ ∃ c, lo ≤ c ∧ c < lo + n ∧ pixel &&& (0x80 >>> c) ≠ 0 ∧
       gfx.getD (colIdx x y yline c) 0 = 1) ∧
    (v = 1 ∨ v = vf) := by
  intro n
  induction n with
  | zero =>
    intro lo gfx vf g v hn hg hb he
    simp only [drawColsAux] at he
    injection he with he1
    injection he1 with h1 h2
    subst h1; subst h2
    refine ⟨?_, ?_, Or.inr rfl⟩
    · intro i
      constructor
      · rintro ⟨c, hc1, hc2, -, -⟩
        omega
      · intro _
        rfl
    · constructor
      · intro hv
        exact Or.inl hv
      · rintro (hv | ⟨c, hc1, hc2, -, -⟩)
        · exact hv
        · omega
  | succ n ih =>
    intro lo gfx vf g v hn hg hb he
    simp only [drawColsAux] at he
    by_cases hbit : pixel &&& (0x80 >>> lo) ≠ 0
    · rw [if_pos hbit] at he
      obtain ⟨p, hrd, he⟩ := bind_ok_inv he
      obtain ⟨gfx1, hwr, he⟩ := bind_ok_inv he
      obtain ⟨hidx, rfl⟩ := rd_inv hrd
      obtain ⟨-, rfl⟩ := wr_inv hwr
      have hp : gfx.getD (colIdx x y yline lo) 0 = 0 ∨
          gfx.getD (colIdx x y yline lo) 0 = 1 := getD_bound (Or.inl rfl) hb _
      have hmod : (gfx.getD (colIdx x y yline lo) 0 ^^^ 1) % 256 =
          gfx.getD (colIdx x y yline lo) 0 ^^^ 1 := by
        rcases hp with hp | hp <;> rw [hp] <;> rfl
      rw [hmod] at he
      have hg1len : (gfx.set (colIdx x y yline lo)
          (gfx.getD (colIdx x y yline lo) 0 ^^^ 1)).length = 2048 := by
        rw [List.length_set]; exact hg
      have hb1 : ∀ a ∈ gfx.set (colIdx x y yline lo)
          (gfx.getD (colIdx x y yline lo) 0 ^^^ 1), a = 0 ∨ a = 1 := by
        intro a ha
        rcases mem_of_mem_set _ _ _ _ ha with ha | rfl
        · exact hb a ha
        · rcases hp with hp | hp <;> rw [hp] <;> simp
      obtain ⟨ihg, ihv, ihd⟩ := ih (lo + 1) _ _ g v (by omega) hg1len hb1 he
      have hnei : ∀ c, lo + 1 ≤ c → c < lo + 1 + n →
          colIdx x y yline c ≠ colIdx x y yline lo := by
        intro c h1 h2 heq
        have : c = lo := colIdx_inj_same_row (by omega) (by omega) heq
        omega
      have hidxrest : ¬ colHit pixel x y yline (lo + 1) n (colIdx x y yline lo) := by
        rintro ⟨c, h1, h2, -, heq⟩
        exact hnei c h1 h2 heq.symm
      have hsplit : ∀ i, colHit pixel x y yline lo (n + 1) i ↔
          (i = colIdx x y yline lo ∨ colHit pixel x y yline (lo + 1) n i) := by
        intro i
        constructor
        · rintro ⟨c, h1, h2, h3, rfl⟩
          by_cases hc : c = lo
          · subst hc
            exact Or.inl rfl
          · exact Or.inr ⟨c, by omega, by omega, h3, rfl⟩
        · rintro (rfl | ⟨c, h1, h2, h3, rfl⟩)
          · exact ⟨lo, le_refl lo, by omega, hbit, rfl⟩
          · exact ⟨c, by omega, by omega, h3, rfl⟩
      refine ⟨?_, ?_, ?_⟩
      · intro i
        constructor
        · intro hhit
          rcases (hsplit i).1 hhit with rfl | hrest
          · rw [(ihg _).2 hidxrest, getD_set_self _ _ _ hidx]
          · have hne : i ≠ colIdx x y yline lo := by
              rintro rfl
              exact hidxrest hrest
            rw [(ihg i).1 hrest, getD_set_ne _ _ _ _ (fun e => hne e.symm)]
        · intro hmiss
          have hrest : ¬ colHit pixel x y yline (lo + 1) n i :=
            fun hr => hmiss ((hsplit i).2 (Or.inr hr))
          have hne : i ≠ colIdx x y yline lo :=
            fun heq => hmiss ((hsplit i).2 (Or.inl heq))
          rw [(ihg i).2 hrest, getD_set_ne _ _ _ _ (fun e => hne e.symm)]
      · rw [ihv]
        constructor
        · rintro (hvf1 | ⟨c, h1, h2, h3, h4⟩)
          · by_cases hpp : gfx.getD (colIdx x y yline lo) 0 = 1
            · exact Or.inr ⟨lo, le_refl lo, by omega, hbit, hpp⟩
            · rw [if_neg hpp] at hvf1
              exact Or.inl hvf1
          · rw [getD_set_ne _ _ _ _ (Ne.symm (hnei c h1 h2))] at h4
            exact Or.inr ⟨c, by omega, by omega, h3, h4⟩
        · rintro (hvf | ⟨c, h1, h2, h3, h4⟩)
          · left
            split
            · rfl
            · exact hvf
          · by_cases hc : c = lo
            · subst hc
              left
              rw [if_pos h4]
            · right
              refine ⟨c, by omega, by omega, h3, ?_⟩
              rw [getD_set_ne _ _ _ _ (Ne.symm (hnei c (by omega) (by omega)))]
              exact h4
      · rcases ihd with h | h
        · exact Or.inl h
        · rw [h]
          by_cases hpp : gfx.getD (colIdx x y yline lo) 0 = 1
          · rw [if_pos hpp]
            exact Or.inl rfl
          · rw [if_neg hpp]
            exact Or.inr rfl
    · rw [if_neg hbit] at he
      obtain ⟨ihg, ihv, ihd⟩ := ih (lo + 1) gfx vf g v (by omega) hg hb he
      have hsplit : ∀ i, colHit pixel x y yline lo (n + 1) i ↔
          colHit pixel x y yline (lo + 1) n i := by
        intro i
        constructor
        · rintro ⟨c, h1, h2, h3, rfl⟩
          have hc : c ≠ lo := by
            rintro rfl
            exact hbit h3
          exact ⟨c, by omega, by omega, h3, rfl⟩
        · rintro ⟨c, h1, h2, h3, rfl⟩
          exact ⟨c, by omega, by omega, h3, rfl⟩
      refine ⟨?_, ?_, ihd⟩
      · intro i
        exact ⟨fun hh => (ihg i).1 ((hsplit i).1 hh),
               fun hm => (ihg i).2 (fun hr => hm ((hsplit i).2 hr))⟩
      · rw [ihv]
        constructor
        · rintro (hvf | ⟨c, h1, h2, h3, h4⟩)
          · exact Or.inl hvf
          · exact Or.inr ⟨c, by omega, by omega, h3, h4⟩
        · rintro (hvf | ⟨c, h1, h2, h3, h4⟩)
          · exact Or.inl hvf
          · have hc : c ≠ lo := by
              rintro rfl
              exact hbit h3
            exact Or.inr ⟨c, by omega, by omega, h3, h4⟩

theorem drawRowsAux_char (mem : List Nat) (I x y : Nat) :
    ∀ (n lo : Nat) (gfx : List Nat) (vf : Nat) (g : List Nat) (v : Nat),
    lo + n ≤ 32 → gfx.length = 2048 → (∀ a ∈ gfx, a = 0 ∨ a = 1) →
    (vf = 0 ∨ vf = 1) →
    drawRowsAux mem I x y n lo gfx vf = .ok (g, v) →
    (∀ i, (rowHit mem I x y lo n i → g.getD i 0 = gfx.getD i 0 ^^^ 1) ∧
          (¬ rowHit mem I x y lo n i → g.getD i 0 = gfx.getD i 0)) ∧
    (v = 1 ↔ vf = 1 ∨ ∃ rr c, lo ≤ rr ∧ rr < lo + n ∧ c < 8 ∧
       mem.getD (I + rr) 0 &&& (0x80 >>> c) ≠ 0 ∧
       gfx.getD (colIdx x y rr c) 0 = 1) ∧
    (v = 1 ∨ v = vf) := by
  intro n
  induction n with
  | zero =>
    intro lo gfx vf g v hn hg hb hv he
    simp only [drawRowsAux] at he
    injection he with he1
    injection he1 with h1 h2
    subst h1; subst h2
    refine ⟨?_, ?_, Or.inr rfl⟩
    · intro i
      constructor
      · rintro ⟨rr, c, h1, h2, -, -, -⟩
        omega
      · intro _
        rfl
    · constructor
      · intro hvv
        exact Or.inl hvv
      · rintro (hvv | ⟨rr, c, h1, h2, -, -, -⟩)
        · exact hvv
        · omega
  | succ n ih =>
    intro lo gfx vf g v hn hg hb hv he
    simp only [drawRowsAux] at he
    obtain ⟨pixel, hrd, he⟩ := bind_ok_inv he
    obtain ⟨-, rfl⟩ := rd_inv hrd
    obtain ⟨pr, hcols, he2⟩ := bind_ok_inv he
    obtain ⟨g1, v1⟩ := pr
    obtain ⟨cg, cv, cd⟩ := drawColsAux_char (mem.getD (I + lo) 0) x y lo 8 0
      gfx vf g1 v1 (by omega) hg hb hcols
    obtain ⟨hlen1, hb1, hv1⟩ := drawColsAux_pres (mem.getD (I + lo) 0) x y lo 8 0
      gfx vf g1 v1 hcols hb hv
    obtain ⟨ihg, ihv, ihd⟩ := ih (lo + 1) g1 v1 g v (by omega) (hlen1.trans hg)
      hb1 hv1 he2
    have hdisj : ∀ i, colHit (mem.getD (I + lo) 0) x y lo 0 8 i →
        ¬ rowHit mem I x y (lo + 1) n i := by
      rintro i ⟨c, -, hc8, -, rfl⟩ ⟨rr, c2, hr1, hr2, -, -, heq⟩
      exact colIdx_ne_rows (by omega) (by omega) (by omega)
        (row_mod_ne (by omega) (by omega) (by omega)) heq
    have hnotlo : ∀ rr c, lo + 1 ≤ rr → rr < lo + 1 + n →
        ¬ colHit (mem.getD (I + lo) 0) x y lo 0 8 (colIdx x y rr c) := by
      rintro rr c h1 h2 ⟨c2, -, hc8, -, heq⟩
      exact colIdx_ne_rows (by omega) (by omega) (by omega)
        (row_mod_ne (by omega) (by omega) (by omega)) heq
    have hsplit : ∀ i, rowHit mem I x y lo (n + 1) i ↔
        (colHit (mem.getD (I + lo) 0) x y lo 0 8 i ∨ rowHit mem I x y (lo + 1) n i) := by
      intro i
      constructor
      · rintro ⟨rr, c, h1, h2, h3, h4, rfl⟩
        by_cases hr : rr = lo
        · subst hr
          exact Or.inl ⟨c, by omega, by omega, h4, rfl⟩
        · exact Or.inr ⟨rr, c, by omega, by omega, h3, h4, rfl⟩
      · rintro (⟨c, -, hc8, h4, rfl⟩ | ⟨rr, c, h1, h2, h3, h4, rfl⟩)
        · exact ⟨lo, c, le_refl lo, by omega, by omega, h4, rfl⟩
        · exact ⟨rr, c, by omega, by omega, h3, h4, rfl⟩
    refine ⟨?_, ?_, ?_⟩
    · intro i
      constructor
      · intro hhit
        rcases (hsplit i).1 hhit with hlo | hrest
        · rw [(ihg i).2 (hdisj i hlo), (cg i).1 hlo]
        · have hnlo : ¬ colHit (mem.getD (I + lo) 0) x y lo 0 8 i :=
            fun hlo => hdisj i hlo hrest
          rw [(ihg i).1 hrest, (cg i).2 hnlo]
      · intro hmiss
        have h1 : ¬ colHit (mem.getD (I + lo) 0) x y lo 0 8 i :=
          fun hlo => hmiss ((hsplit i).2 (Or.inl hlo))
        have h2 : ¬ rowHit mem I x y (lo + 1) n i :=
          fun hr => hmiss ((hsplit i).2 (Or.inr hr))
        rw [(ihg i).2 h2, (cg i).2 h1]
    · rw [ihv, cv]
      constructor
      · rintro ((hvf | ⟨c, -, hc8, hb8, h4⟩) | ⟨rr, c, h1, h2, h3, h4, h5⟩)
        · exact Or.inl hvf
        · exact Or.inr ⟨lo, c, le_refl lo, by omega, by omega, hb8, h4⟩
        · rw [(cg _).2 (hnotlo rr c h1 h2)] at h5
          exact Or.inr ⟨rr, c, by omega, by omega, h3, h4, h5⟩
      · rintro (hvf | ⟨rr, c, h1, h2, h3, h4, h5⟩)
        · exact Or.inl (Or.inl hvf)
        · by_cases hr : rr = lo
          · subst hr
            exact Or.inl (Or.inr ⟨c, by omega, by omega, h4, h5⟩)
          · refine Or.inr ⟨rr, c, by omega, by omega, h3, h4, ?_⟩
            rw [(cg _).2 (hnotlo rr c (by omega) (by omega))]
            exact h5
    · rcases ihd with h | h
      · exact Or.inl h
      · rw [h]
        exact cd

theorem applyTimers_gfx (c : Chip8) : (applyTimers c).gfx = c.gfx := by
  simp only [applyTimers]
  split <;> split <;> rfl

theorem applyTimers_V (c : Chip8) : (applyTimers c).V = c.V := by
  simp only [applyTimers]
  split <;> split <;> rfl

theorem applyTimers_pc (c : Chip8) : (applyTimers c).pc = c.pc := by
  simp only [applyTimers]
  split <;> split <;> rfl

theorem applyTimers_sp (c : Chip8) : (applyTimers c).sp = c.sp := by
  simp only [applyTimers]
  split <;> split <;> rfl

theorem applyTimers_stack (c : Chip8) : (applyTimers c).stack = c.stack := by
  simp only [applyTimers]
  split <;> split <;> rfl

theorem applyTimers_memory (c : Chip8) : (applyTimers c).memory = c.memory := by
  simp only [applyTimers]
  split <;> split <;> rfl

theorem writeBytes_getD_above : ∀ (rom mem : List Nat) (a i : Nat),
    a + rom.length ≤ i → (writeBytes mem a rom).getD i 0 = mem.getD i 0
  | [], _, _, _, _ => rfl
  | b :: bs, mem, a, i, hi => by
      simp only [List.length_cons] at hi
      show (writeBytes (mem.set a (b % 256)) (a + 1) bs).getD i 0 = mem.getD i 0
      rw [writeBytes_getD_above bs _ _ _ (by omega),
          getD_set_ne _ _ _ _ (by omega)]

/-- The all-zero base state is well-formed (proved without evaluating the
4096-element lists). -/
theorem wf_zeroState : WF zeroState := by
  refine ⟨?_, ?_, ?_, ?_, ?_, ?_, ?_, ?_, ?_, ?_, ?_, ?_, ?_, ?_⟩
  · show (List.replicate 4096 (0 : Nat)).length = 4096
    rw [List.length_replicate]
  · show ∀ a ∈ List.replicate 4096 (0 : Nat), a < 256
    intro a ha
    rw [List.eq_of_mem_replicate ha]
    omega
  · show (List.replicate 16 (0 : Nat)).length = 16
    rw [List.length_replicate]
  · show ∀ a ∈ List.replicate 16 (0 : Nat), a < 256
    intro a ha
    rw [List.eq_of_mem_replicate ha]
    omega
  · show (List.replicate 2048 (0 : Nat)).length = 2048
    rw [List.length_replicate]
  · show ∀ a ∈ List.replicate 2048 (0 : Nat), a = 0 ∨ a = 1
    intro a ha
    exact Or.inl (List.eq_of_mem_replicate ha)
  · show (List.replicate 16 (0 : Nat)).length = 16
    rw [List.length_replicate]
  · show ∀ a ∈ List.replicate 16 (0 : Nat), a < 65536
    intro a ha
    rw [List.eq_of_mem_replicate ha]
    omega
  · show (List.replicate 16 (0 : Nat)).length = 16
    rw [List.length_replicate]
  · show (0 : Nat) ≤ 16
    omega
  · show (0x200 : Nat) < 65536
    omega
  · show (0 : Nat) < 65536
    omega
  · show (0 : Nat) < 256
    omega
  · show (0 : Nat) < 256
    omega

/-- Symbolic evaluation of one cycle executing a `1NNN` jump. -/
theorem cycle_1NNN (s : Chip8) (r : Nat)
    (hpc1 : s.pc + 1 < s.memory.length)
    (hop : fetchOp s &&& 0xF000 = 0x1000) :
    emulate_cycle s r = .ok (applyTimers { s with pc := fetchOp s &&& 0x0FFF }) := by
  have h1 : s.pc < s.memory.length := by omega
  have hfe : (s.memory.getD s.pc 0 <<< 8) ||| s.memory.getD (s.pc + 1) 0 = fetchOp s := rfl
  simp only [emulate_cycle, rd_ok h1, rd_ok hpc1, ok_bind]
  rw [hfe]
  rw [if_neg (by rw [hop]; decide), if_pos hop]
  simp only [ok_bind, exec1NNN]

/-- Symbolic evaluation of one cycle executing an uninteresting `0NNN`
instruction (neither `00E0` nor `00EE`): just advance. -/
theorem cycle_0adv (s : Chip8) (r : Nat)
    (hpc1 : s.pc + 1 < s.memory.length)
    (hop : fetchOp s &&& 0xF000 = 0x0000)
    (hne0 : ¬ fetchOp s &&& 0x00FF = 0x00E0)
    (hneE : ¬ fetchOp s &&& 0x00FF = 0x00EE) :
    emulate_cycle s r = .ok (applyTimers { s with pc := (s.pc + 2) % 65536 }) := by
  have h1 : s.pc < s.memory.length := by omega
  have hfe : (s.memory.getD s.pc 0 <<< 8) ||| s.memory.getD (s.pc + 1) 0 = fetchOp s := rfl
  simp only [emulate_cycle, rd_ok h1, rd_ok hpc1, ok_bind]
  rw [hfe]
  rw [if_pos hop]
  simp only [exec0]
  rw [if_neg hne0, if_neg hneE]
  simp only [ok_bind]

theorem drawRowsAux_ok (mem : List Nat) (I x y : Nat) :
    ∀ (n lo : Nat) (gfx : List Nat) (vf : Nat), gfx.length = 2048 →
    (∀ rr, lo ≤ rr → rr < lo + n → I + rr < mem.length) →
    ∃ g v, drawRowsAux mem I x y n lo gfx vf = .ok (g, v) ∧ g.length = 2048 := by
  intro n
  induction n with
  | zero =>
    intro lo gfx vf hg _
    exact ⟨gfx, vf, rfl, hg⟩
  | succ n ih =>
    intro lo gfx vf hg hmb
    have hrd : rd .mem mem (I + lo) = .ok (mem.getD (I + lo) 0) :=
      rd_ok (hmb lo (le_refl lo) (by omega))
    obtain ⟨g1, v1, hcols, hgl1⟩ :=
      drawColsAux_ok (mem.getD (I + lo) 0) x y lo 8 0 gfx vf hg
    obtain ⟨g, v, hrec, hgl⟩ := ih (lo + 1) g1 v1 hgl1
      (fun rr h1 h2 => hmb rr (by omega) (by omega))
    refine ⟨g, v, ?_, hgl⟩
    simp only [drawRowsAux]
    rw [hrd, ok_bind, hcols, ok_bind]
    exact hrec

/-- The single-bit sprite `c7mem` drawn at (0,0) targets exactly cell 0. -/
theorem c7_hit0 : rowHit c7mem 0 0 0 0 1 0 :=
  ⟨0, 0, le_refl 0, by omega, by omega, by decide, by decide⟩

theorem c7_nohit : ∀ i, i ≠ 0 → ¬ rowHit c7mem 0 0 0 0 1 i := by
  rintro i hne ⟨rr, c, h1, h2, h3, h4, rfl⟩
  have hrr : rr = 0 := by omega
  subst hrr
  interval_cases c
  · exact hne (by decide)
  · exact h4 (by decide)
  · exact h4 (by decide)
  · exact h4 (by decide)
  · exact h4 (by decide)
  · exact h4 (by decide)
  · exact h4 (by decide)
  · exact h4 (by decide)

/-- First draw of the one-bit sprite on a black screen: cell 0 lights up,
no collision. -/
theorem c7_first_draw :
    drawSprite c7mem 0 0 0 1 (List.replicate 2048 0) = .ok (c7g1, 0) := by
  have hg : (List.replicate 2048 (0 : Nat)).length = 2048 := by
    rw [List.length_replicate]
  have hb : ∀ a ∈ List.replicate 2048 (0 : Nat), a = 0 ∨ a = 1 :=
    fun a ha => Or.inl (List.eq_of_mem_replicate ha)
  have hmb : ∀ rr, 0 ≤ rr → rr < 0 + 1 → 0 + rr < c7mem.length := by
    intro rr h1 h2
    have hrr : rr = 0 := by omega
    rw [hrr]
    decide
  obtain ⟨g, v, he, hgl⟩ :=
    drawRowsAux_ok c7mem 0 0 0 1 0 (List.replicate 2048 0) 0 hg hmb
  obtain ⟨cg, cv, cd⟩ := drawRowsAux_char c7mem 0 0 0 1 0 (List.replicate 2048 0) 0
    g v (by omega) hg hb (Or.inl rfl) he
  have hgeq : g = c7g1 := by
    apply eq_of_getD
    · rw [hgl]
      show (2048 : Nat) = ((List.replicate 2048 (0 : Nat)).set 0 1).length
      rw [List.length_set, List.length_replicate]
    · intro i
      by_cases hi : i = 0
      · subst hi
        rw [(cg 0).1 c7_hit0, getD_replicate]
        show (0 : Nat) ^^^ 1 = ((List.replicate 2048 (0 : Nat)).set 0 1).getD 0 0
        rw [getD_set_self _ _ _ (by rw [List.length_replicate]; omega)]
        decide
      · rw [(cg i).2 (c7_nohit i hi), getD_replicate]
        show (0 : Nat) = ((List.replicate 2048 (0 : Nat)).set 0 1).getD i 0
        rw [getD_set_ne _ _ _ _ (fun e => hi e.symm), getD_replicate]
  have hveq : v = 0 := by
    rcases cd with h | h
    · exfalso
      rcases cv.1 h with h0 | ⟨rr, c, -, -, -, -, h5⟩
      · exact absurd h0 (by decide)
      · rw [getD_replicate] at h5
        exact absurd h5 (by decide)
    · exact h
  show drawRowsAux c7mem 0 0 0 1 0 (List.replicate 2048 0) 0 = .ok (c7g1, 0)
  rw [he, hgeq, hveq]

/-- Second identical draw: cell 0 toggles back off and the collision flag
is set. -/
theorem c7_second_draw :
    drawSprite c7mem 0 0 0 1 c7g1 = .ok (List.replicate 2048 0, 1) := by
  have hg : c7g1.length = 2048 := by
    show ((List.replicate 2048 (0 : Nat)).set 0 1).length = 2048
    rw [List.length_set, List.length_replicate]
  have hb : ∀ a ∈ c7g1, a = 0 ∨ a = 1 := by
    intro a ha
    have ha2 : a ∈ (List.replicate 2048 (0 : Nat)).set 0 1 := ha
    rcases mem_of_mem_set _ _ _ _ ha2 with ha3 | rfl
    · exact Or.inl (List.eq_of_mem_replicate ha3)
    · exact Or.inr rfl
  have hmb : ∀ rr, 0 ≤ rr → rr < 0 + 1 → 0 + rr < c7mem.length := by
    intro rr h1 h2
    have hrr : rr = 0 := by omega
    rw [hrr]
    decide
  have hlen0 : (0 : Nat) < (List.replicate 2048 (0 : Nat)).length := by
    rw [List.length_replicate]
    omega
  have hget0 : c7g1.getD 0 0 = 1 := getD_set_self _ _ _ hlen0
  have hgetne : ∀ i, i ≠ 0 → c7g1.getD i 0 = 0 := by
    intro i hi
    show ((List.replicate 2048 (0 : Nat)).set 0 1).getD i 0 = 0
    rw [getD_set_ne _ _ _ _ (fun e => hi e.symm), getD_replicate]
  obtain ⟨g, v, he, hgl⟩ := drawRowsAux_ok c7mem 0 0 0 1 0 c7g1 0 hg hmb
  obtain ⟨cg, cv, cd⟩ := drawRowsAux_char c7mem 0 0 0 1 0 c7g1 0
    g v (by omega) hg hb (Or.inl rfl) he
  have hgeq : g = List.replicate 2048 0 := by
    apply eq_of_getD
    · rw [hgl, List.length_replicate]
    · intro i
      by_cases hi : i = 0
      · subst hi
        rw [(cg 0).1 c7_hit0, hget0, getD_replicate]
        decide
      · rw [(cg i).2 (c7_nohit i hi), hgetne i hi, getD_replicate]
  have hveq : v = 1 := by
    apply cv.2
    right
    refine ⟨0, 0, le_refl 0, by omega, by omega, by decide, ?_⟩
    show c7g1.getD 0 0 = 1
    exact hget0
  show drawRowsAux c7mem 0 0 0 1 0 c7g1 0 = .ok (List.replicate 2048 0, 1)
  rw [he, hgeq, hveq]

theorem runSteps_two (s : Chip8) (r : Nat) :
    runSteps s r 2 = (emulate_cycle s r) >>= fun s1 =>
      (emulate_cycle s1 r) >>= fun s2 => Except.ok s2 := rfl

/-! ### The claims -/

/-- C1: the claim says every `8XYN` instruction writes the flag `V[0xF]`
after the primary result, so that `X = 0xF` keeps the flag.  The code does
the opposite: it writes the flag first and the result second.  At `8FE4`
with `V[0xF] = 200`, `V[0xE] = 100` the sum 300 overflows, so the claim
requires `V[0xF] = 1` afterwards; the code instead leaves the truncated sum
`300 & 0xFF = 44` in `V[0xF]`. -/
theorem c1_vf_overwritten_by_result :
    (emulate_cycle c1state 0).map (fun t => t.V.getD 0xF 0) = Except.ok 44 := rfl

/-- C2: the claim says a step that is not `FX15`/`FX18` leaves both timers
unchanged and only `tick_timers` decrements them.  The code decrements both
timers at the end of every `emulate_cycle`: executing the jump `1200` with
`delay_timer = 5`, `sound_timer = 3` yields timers `(4, 2)`. -/
theorem c2_step_decrements_timers :
    (emulate_cycle c2state 0).map (fun t => (t.delay_timer, t.sound_timer)) =
      Except.ok (4, 2) := rfl

/-- C3 counterexample: the key index `V[X]` of `EX9E` is NOT reduced by
modular arithmetic.  With `V[0] = 200` the instruction `E09E` indexes the
16-entry `key` array at 200 and runs off the buffer. -/
theorem c3_key_index_out_of_bounds :
    emulate_cycle c3state 0 = Except.error Buf.key := rfl

/-- C3 (amended): only the framebuffer indexing of `DXYN` is reduced by
modular arithmetic (`% 64`, `% 32`); on a well-formed state a step can
overrun `memory`, `stack` or `key`, but never `gfx`. -/
theorem c3_gfx_indexing_in_bounds (s : Chip8) (r : Nat) (h : WF s) :
    emulate_cycle s r ≠ Except.error Buf.gfx :=
  cycle_no_gfx r h

theorem c3_gfx_indexing_in_bounds_witness :
    WF zeroState ∧ emulate_cycle zeroState 0 ≠ Except.error Buf.gfx :=
  ⟨wf_zeroState, c3_gfx_indexing_in_bounds zeroState 0 wf_zeroState⟩

/-- C4 counterexample: the invariant `pc ≤ 0xFFF` fails on a reachable
state.  Loading the ROM `1FFE` and stepping twice (jump to 0xFFE, then
advance over the zero word there) leaves `pc = 0x1000 > 0xFFF`. -/
theorem c4_pc_exceeds_fff :
    load_rom (init_cpu zeroState) c4rom = some c4s0 ∧
    (runSteps c4s0 0 2).map Chip8.pc = Except.ok 0x1000 ∧
    ¬ (0x1000 ≤ 0xFFF) := by
  refine ⟨rfl, ?_, by decide⟩
  have hmem : c4s0.memory = writeBytes (List.replicate 4096 0) 0x200 c4rom := rfl
  have hpc0 : c4s0.pc = 0x200 := rfl
  have hml : c4s0.memory.length = 4096 := by
    rw [hmem, writeBytes_length, List.length_replicate]
  have hb0 : c4s0.memory.getD 0x200 0 = 0x1F := by
    have h := writeBytes_getD_in c4rom (List.replicate 4096 0) 0x200 0 (by decide)
      (by rw [List.length_replicate]; decide)
    have h2 : c4rom.getD 0 0 % 256 = 0x1F := rfl
    rw [h2, Nat.add_zero] at h
    rw [hmem]
    exact h
  have hb1 : c4s0.memory.getD 0x201 0 = 0xFE := by
    have h := writeBytes_getD_in c4rom (List.replicate 4096 0) 0x200 1 (by decide)
      (by rw [List.length_replicate]; decide)
    have h2 : c4rom.getD 1 0 % 256 = 0xFE := rfl
    have h3 : (0x200 : Nat) + 1 = 0x201 := by norm_num
    rw [h2, h3] at h
    rw [hmem]
    exact h
  have hb2 : c4s0.memory.getD 0xFFE 0 = 0 := by
    have h := writeBytes_getD_above c4rom (List.replicate 4096 0) 0x200 0xFFE (by decide)
    rw [hmem, h, getD_replicate]
  have hb3 : c4s0.memory.getD 0xFFF 0 = 0 := by
    have h := writeBytes_getD_above c4rom (List.replicate 4096 0) 0x200 0xFFF (by decide)
    rw [hmem, h, getD_replicate]
  have hfetch1 : fetchOp c4s0 = 0x1FFE := by
    unfold fetchOp
    have h3 : (0x200 : Nat) + 1 = 0x201 := by norm_num
    rw [hpc0, h3, hb0, hb1]
    decide
  have hstep1 := cycle_1NNN c4s0 0 (by rw [hpc0, hml]; omega) (by rw [hfetch1]; decide)
  rw [runSteps_two, hstep1, ok_bind]
  set t1 := applyTimers { c4s0 with pc := fetchOp c4s0 &&& 0x0FFF } with ht1
  have hA : t1.memory = c4s0.memory := by
    rw [ht1, applyTimers_memory]
  have hBv : t1.pc = 0xFFE := by
    rw [ht1, applyTimers_pc]
    show fetchOp c4s0 &&& 0x0FFF = 0xFFE
    rw [hfetch1]
    decide
  have hfetch2 : fetchOp t1 = 0 := by
    unfold fetchOp
    have h3 : (0xFFE : Nat) + 1 = 0xFFF := by norm_num
    rw [hA, hBv, h3, hb2, hb3]
    decide
  have hstep2 := cycle_0adv t1 0 (by rw [hBv, hA, hml]; omega)
    (by rw [hfetch2]; decide) (by rw [hfetch2]; decide) (by rw [hfetch2]; decide)
  rw [hstep2, ok_bind]
  simp only [Except.map]
  rw [applyTimers_pc]
  show Except.ok ((t1.pc + 2) % 65536) = Except.ok 0x1000
  have h4 : ((0xFFE : Nat) + 2) % 65536 = 0x1000 := by norm_num
  rw [hBv, h4]

/-- C4 (amended): after every step on every reachable state, `sp ≤ 16`,
`V[i] ≤ 255` and `gfx[i] ∈ {0,1}` hold, and `pc ≤ 0xFFFF`: the program
counter is a full 16-bit value that the code never masks to 12 bits, so
`pc ≤ 0xFFF` is not an invariant. -/
theorem c4_reachable_invariants (s : Chip8) (h : Reach s) :
    s.sp ≤ 16 ∧ (∀ v ∈ s.V, v ≤ 255) ∧ (∀ g ∈ s.gfx, g = 0 ∨ g = 1) ∧
    s.pc ≤ 0xFFFF := by
  obtain ⟨hm, hmb, hV, hVb, hg, hgb, hstk, hstkb, hkey, hsp, hpc, hI, hdt, hst⟩ :=
    reach_wf h
  refine ⟨hsp, ?_, hgb, by omega⟩
  intro v hv
  have := hVb v hv
  omega

theorem c4_reachable_invariants_witness :
    Reach c4s0 ∧ (c4s0.sp ≤ 16 ∧ (∀ v ∈ c4s0.V, v ≤ 255) ∧
      (∀ g ∈ c4s0.gfx, g = 0 ∨ g = 1) ∧ c4s0.pc ≤ 0xFFFF) :=
  ⟨Reach.load zeroState c4rom c4s0 (by decide) (by decide) rfl,
   c4_reachable_invariants c4s0
     (Reach.load zeroState c4rom c4s0 (by decide) (by decide) rfl)⟩

/-- C5: the claim says `00EE` with `sp = 0` fails with `StackUnderflow` and
`2NNN` with `sp = 16` fails with `StackOverflow`, each returning an event
without mutating further.  The code has no such checks: `00EE` at `sp = 0`
wraps `sp` to 0xFFFF and reads `stack[0xFFFF]`, and `2NNN` at `sp = 16`
writes `stack[16]` — both out-of-bounds accesses of the 16-entry stack
(undefined behavior in C, the `.error Buf.stk` of this model). -/
theorem c5_stack_faults_are_oob :
    emulate_cycle c5under 0 = Except.error Buf.stk ∧
    emulate_cycle c5over 0 = Except.error Buf.stk :=
  ⟨rfl, rfl⟩

/-- C10: a step never clears `draw_flag`: from any state whose flag is set,
`emulate_cycle` cannot produce a state whose flag is clear (the only
assignments, in `00E0` and `DXYN`, set it to true). -/
theorem c10_draw_flag_monotone (s : Chip8) (r : Nat)
    (hdf : s.draw_flag = true) :
    (emulate_cycle s r).map Chip8.draw_flag ≠ Except.ok false := by
  intro heq
  cases he : emulate_cycle s r with
  | error b =>
    rw [he] at heq
    exact Except.noConfusion heq
  | ok t =>
    rw [he] at heq
    simp only [Except.map] at heq
    have hdt := df_emulate_cycle hdf he
    rw [hdt] at heq
    exact absurd (Except.ok.inj heq) (by decide)

theorem c10_draw_flag_monotone_witness :
    zeroState.draw_flag = true ∧
    (emulate_cycle zeroState 0).map Chip8.draw_flag ≠ Except.ok false :=
  ⟨rfl, c10_draw_flag_monotone zeroState 0 rfl⟩

/-- Symbolic evaluation of one cycle executing a `2NNN` call. -/
theorem cycle_2NNN (s : Chip8) (r : Nat)
    (hpc1 : s.pc + 1 < s.memory.length)
    (hop : fetchOp s &&& 0xF000 = 0x2000)
    (hsp : s.sp < s.stack.length) :
    emulate_cycle s r = .ok (applyTimers { s with
      stack := s.stack.set s.sp s.pc
      sp := (s.sp + 1) % 65536
      pc := fetchOp s &&& 0x0FFF }) := by
  have h1 : s.pc < s.memory.length := by omega
  have hfe : (s.memory.getD s.pc 0 <<< 8) ||| s.memory.getD (s.pc + 1) 0 = fetchOp s := rfl
  simp only [emulate_cycle, rd_ok h1, rd_ok hpc1, ok_bind]
  rw [hfe]
  rw [if_neg (by rw [hop]; decide), if_neg (by rw [hop]; decide), if_pos hop]
  simp only [exec2NNN, wr_ok hsp, ok_bind]

/-- Symbolic evaluation of one cycle executing a `00EE` return. -/
theorem cycle_00EE (t : Chip8) (r : Nat)
    (hpc1 : t.pc + 1 < t.memory.length)
    (hb1 : t.memory.getD t.pc 0 = 0x00)
    (hb2 : t.memory.getD (t.pc + 1) 0 = 0xEE)
    (hsp : (t.sp + 65535) % 65536 < t.stack.length) :
    emulate_cycle t r = .ok (applyTimers { t with
      sp := (t.sp + 65535) % 65536
      pc := (t.stack.getD ((t.sp + 65535) % 65536) 0 + 2) % 65536 }) := by
  have h1 : t.pc < t.memory.length := by omega
  simp only [emulate_cycle, rd_ok h1, rd_ok hpc1, ok_bind, hb1, hb2]
  rw [if_pos (by decide)]
  simp only [exec0]
  rw [if_neg (by decide), if_pos (by decide)]
  simp only [rd_ok hsp, ok_bind]

/-- C6: a `2NNN` call at address `A` followed by `00EE` at the subroutine
lands on `pc = A + 2`, the instruction after the call, with `sp` restored,
for every state with `sp < 16` (and the fetches in bounds). -/
theorem c6_call_then_return (s : Chip8) (r r2 : Nat)
    (hstk : s.stack.length = 16)
    (hsp : s.sp < 16)
    (hpc : s.pc + 1 < s.memory.length)
    (hpc2 : s.pc + 2 < 65536)
    (hop : fetchOp s &&& 0xF000 = 0x2000)
    (hnn : (fetchOp s &&& 0x0FFF) + 1 < s.memory.length)
    (hb1 : s.memory.getD (fetchOp s &&& 0x0FFF) 0 = 0x00)
    (hb2 : s.memory.getD ((fetchOp s &&& 0x0FFF) + 1) 0 = 0xEE) :
    ((emulate_cycle s r) >>= fun s1 => emulate_cycle s1 r2).map (fun t => (t.pc, t.sp)) =
      Except.ok (s.pc + 2, s.sp) := by
  rw [cycle_2NNN s r (by omega) hop (by omega)]
  rw [ok_bind]
  set t1 : Chip8 := applyTimers { s with
    stack := s.stack.set s.sp s.pc
    sp := (s.sp + 1) % 65536
    pc := fetchOp s &&& 0x0FFF } with ht1
  have hA : t1.memory = s.memory := by rw [ht1, applyTimers_memory]
  have hB : t1.pc = fetchOp s &&& 0x0FFF := by rw [ht1, applyTimers_pc]
  have hC : t1.sp = (s.sp + 1) % 65536 := by rw [ht1, applyTimers_sp]
  have hD2 : t1.stack = s.stack.set s.sp s.pc := by rw [ht1, applyTimers_stack]
  rw [cycle_00EE t1 r2 (by rw [hA, hB]; omega)
      (by rw [hA, hB]; exact hb1)
      (by rw [hA, hB]; exact hb2)
      (by rw [hC, hD2, List.length_set, hstk]; omega)]
  simp only [Except.map, applyTimers_pc, applyTimers_sp]
  show Except.ok ((t1.stack.getD ((t1.sp + 65535) % 65536) 0 + 2) % 65536,
      (t1.sp + 65535) % 65536) = Except.ok (s.pc + 2, s.sp)
  rw [hC, hD2]
  have hS1 : ((s.sp + 1) % 65536 + 65535) % 65536 = s.sp := by omega
  rw [hS1]
  rw [getD_set_self _ _ _ (show s.sp < s.stack.length by omega)]
  have hP : (s.pc + 2) % 65536 = s.pc + 2 := by omega
  rw [hP]

theorem c6_call_then_return_witness :
    c6state.sp < 16 ∧ fetchOp c6state &&& 0xF000 = 0x2000 ∧
    ((emulate_cycle c6state 0) >>= fun s1 => emulate_cycle s1 0).map
        (fun t => (t.pc, t.sp)) =
      Except.ok (c6state.pc + 2, c6state.sp) :=
  ⟨by decide, by decide,
   c6_call_then_return c6state 0 0 (by decide) (by decide) (by decide) (by decide)
     (by decide) (by decide) (by decide) (by decide)⟩

/-- C9: executing `DXYN` with height nibble `N = 0` leaves the whole
framebuffer unchanged, sets `V[0xF] = 0`, sets `draw_flag`, and advances
`pc` by 2. -/
theorem c9_draw_height_zero (s : Chip8) (r : Nat)
    (hV : s.V.length = 16)
    (hpc : s.pc + 1 < s.memory.length)
    (hD : fetchOp s &&& 0xF000 = 0xD000)
    (hN : fetchOp s &&& 0x000F = 0) :
    (emulate_cycle s r).map (fun t => (t.gfx, t.V.getD 0xF 0, t.draw_flag, t.pc)) =
      Except.ok (s.gfx, 0, true, (s.pc + 2) % 65536) := by
  have h1 : s.pc < s.memory.length := by omega
  have h2 : s.pc + 1 < s.memory.length := by omega
  have hfe : (s.memory.getD s.pc 0 <<< 8) ||| s.memory.getD (s.pc + 1) 0 = fetchOp s := rfl
  simp only [emulate_cycle, rd_ok h1, rd_ok h2, ok_bind]
  rw [hfe]
  rw [if_neg (by rw [hD]; decide), if_neg (by rw [hD]; decide), if_neg (by rw [hD]; decide),
      if_neg (by rw [hD]; decide), if_neg (by rw [hD]; decide), if_neg (by rw [hD]; decide),
      if_neg (by rw [hD]; decide), if_neg (by rw [hD]; decide), if_neg (by rw [hD]; decide),
      if_neg (by rw [hD]; decide), if_neg (by rw [hD]; decide), if_neg (by rw [hD]; decide),
      if_pos hD]
  simp only [execDXYN, drawSprite, hN, drawRowsAux, ok_bind, Except.map]
  rw [applyTimers_gfx, applyTimers_V, applyTimers_pc, applyTimers_df]
  dsimp only
  rw [getD_set_self s.V 15 0 (by omega)]

theorem c9_draw_height_zero_witness :
    fetchOp c9state &&& 0xF000 = 0xD000 ∧ fetchOp c9state &&& 0x000F = 0 ∧
    (emulate_cycle c9state 0).map (fun t => (t.gfx, t.V.getD 0xF 0, t.draw_flag, t.pc)) =
      Except.ok (c9state.gfx, 0, true, (c9state.pc + 2) % 65536) :=
  ⟨by decide, by decide,
   c9_draw_height_zero c9state 0 (by decide) (by decide) (by decide) (by decide)⟩

/-- C7 counterexample: the claim states the second identical draw sets
`V[0xF] = 1` iff some target bit was 1 before the first call's toggle.
Drawing the single-bit sprite `0x80` at (0,0) on an all-zero framebuffer
(no target bit is 1), the second draw nevertheless reports a collision:
it collides exactly on the pixel the first draw lit.  The framebuffer is
restored. -/
theorem c7_second_draw_collides_on_lit :
    drawSprite c7mem 0 0 0 1 (List.replicate 2048 0) = .ok (c7g1, 0) ∧
    drawSprite c7mem 0 0 0 1 c7g1 = .ok (List.replicate 2048 0, 1) :=
  ⟨c7_first_draw, c7_second_draw⟩

/-- C7 (amended): drawing the same sprite twice with identical operands and
nothing else touching `gfx` restores the framebuffer (XOR is self-inverse),
and the second draw sets `V[0xF] = 1` iff some target bit was 0 before the
first call's toggle — i.e. the second draw collides exactly on the pixels
the first draw lit. -/
theorem c7_draw_twice_restores (mem gfx : List Nat) (I x y height : Nat)
    (g1 : List Nat) (v1 : Nat) (g2 : List Nat) (v2 : Nat)
    (hg : gfx.length = 2048)
    (hb : ∀ a ∈ gfx, a = 0 ∨ a = 1)
    (hh : height ≤ 32)
    (h1 : drawSprite mem I x y height gfx = .ok (g1, v1))
    (h2 : drawSprite mem I x y height g1 = .ok (g2, v2)) :
    g2 = gfx ∧
    (v2 = 1 ↔ ∃ i, spriteTarget mem I x y height i ∧ gfx.getD i 0 = 0) := by
  simp only [drawSprite] at h1 h2
  obtain ⟨cg1, cv1, cd1⟩ := drawRowsAux_char mem I x y height 0 gfx 0 g1 v1
    (by omega) hg hb (Or.inl rfl) h1
  obtain ⟨hlen1, hb1, hv1⟩ := drawRowsAux_pres mem I x y height 0 gfx 0 g1 v1
    h1 hb (Or.inl rfl)
  obtain ⟨cg2, cv2, cd2⟩ := drawRowsAux_char mem I x y height 0 g1 0 g2 v2
    (by omega) (hlen1.trans hg) hb1 (Or.inl rfl) h2
  obtain ⟨hlen2, hb2, hv2⟩ := drawRowsAux_pres mem I x y height 0 g1 0 g2 v2
    h2 hb1 (Or.inl rfl)
  constructor
  · apply eq_of_getD
    · rw [hlen2, hlen1]
    · intro i
      by_cases hhit : rowHit mem I x y 0 height i
      · rw [(cg2 i).1 hhit, (cg1 i).1 hhit]
        rw [Nat.xor_assoc, Nat.xor_self, Nat.xor_zero]
      · rw [(cg2 i).2 hhit, (cg1 i).2 hhit]
  · rw [cv2]
    constructor
    · rintro (h0 | ⟨rr, c, h1r, h2r, h3r, h4r, h5r⟩)
      · exact absurd h0 (by decide)
      · have hhit : rowHit mem I x y 0 height (colIdx x y rr c) :=
          ⟨rr, c, h1r, h2r, h3r, h4r, rfl⟩
        rw [(cg1 _).1 hhit] at h5r
        have hgi : gfx.getD (colIdx x y rr c) 0 = 0 ∨
            gfx.getD (colIdx x y rr c) 0 = 1 := getD_bound (Or.inl rfl) hb _
        have h0 : gfx.getD (colIdx x y rr c) 0 = 0 := by
          rcases hgi with h | h
          · exact h
          · rw [h] at h5r
            exact absurd h5r (by decide)
        exact ⟨colIdx x y rr c, ⟨rr, c, by omega, h3r, h4r, rfl⟩, h0⟩
    · rintro ⟨i, ⟨rr, c, hrr, hc8, hbit, rfl⟩, h0⟩
      right
      refine ⟨rr, c, by omega, by omega, hc8, hbit, ?_⟩
      have hhit : rowHit mem I x y 0 height (colIdx x y rr c) :=
        ⟨rr, c, by omega, by omega, hc8, hbit, rfl⟩
      rw [(cg1 _).1 hhit, h0]
      decide

theorem c7_draw_twice_restores_witness :
    drawSprite c7mem 0 0 0 1 (List.replicate 2048 0) = .ok (c7g1, 0) ∧
    drawSprite c7mem 0 0 0 1 c7g1 = .ok (List.replicate 2048 0, 1) ∧
    (List.replicate 2048 (0 : Nat) = List.replicate 2048 0 ∧
     ((1 : Nat) = 1 ↔ ∃ i, spriteTarget c7mem 0 0 0 1 i ∧
        (List.replicate 2048 (0 : Nat)).getD i 0 = 0)) :=
  ⟨c7_first_draw, c7_second_draw,
   c7_draw_twice_restores c7mem (List.replicate 2048 0) 0 0 0 1 c7g1 0
     (List.replicate 2048 0) 1 (by rw [List.length_replicate])
     (fun a ha => Or.inl (List.eq_of_mem_replicate ha)) (by decide)
     c7_first_draw c7_second_draw⟩

/-- C8 counterexample: after a successful load, address 0 holds 0 — not the
first byte 0xF0 of the standard hex font, which the code never installs —
and the delay timer keeps its prior (in C: indeterminate) value 7 instead of
being reset to 0. -/
theorem c8_no_font_no_timer_reset :
    (load_rom (init_cpu c8pre) [0xAB]).map
        (fun s => (s.memory.getD 0 0, s.delay_timer)) = some (0, 7) ∧
    chip8_fontset.getD 0 0 = 0xF0 :=
  ⟨rfl, rfl⟩

/-- C8 (amended): after `init_cpu` + a successful `load_rom` of a ROM of
length `L ≤ 3584`, the ROM bytes occupy `0x200 … 0x200+L-1`, `pc = 0x200`,
`I = 0`, `sp = 0`, `draw_flag = true`, and all memory below 0x200 is zero:
no font is installed, and the two timers are left at whatever values the
struct held before (the C code never initializes them). -/
theorem c8_load_state (pre : Chip8) (rom : List Nat) (s : Chip8)
    (h : load_rom (init_cpu pre) rom = some s) :
    s.pc = 0x200 ∧ s.I = 0 ∧ s.sp = 0 ∧ s.draw_flag = true ∧
    s.delay_timer = pre.delay_timer ∧ s.sound_timer = pre.sound_timer ∧
    rom.length ≤ 3584 ∧
    (∀ i, i < 0x200 → s.memory.getD i 0 = 0) ∧
    (∀ j, j < rom.length → s.memory.getD (0x200 + j) 0 = rom.getD j 0 % 256) := by
  simp only [load_rom, init_cpu] at h
  split at h
  · exact Option.noConfusion h
  · injection h with h1
    subst h1
    rename_i hlen
    refine ⟨rfl, rfl, rfl, rfl, rfl, rfl, by omega, ?_, ?_⟩
    · intro i hi
      dsimp only
      rw [writeBytes_getD_below _ _ _ _ (by omega), getD_replicate]
    · intro j hj
      dsimp only
      rw [writeBytes_getD_in _ _ _ _ hj (by rw [List.length_replicate]; omega)]

theorem c8_load_state_witness :
    load_rom (init_cpu c8pre) [0xAB] = some c8loaded ∧
    (c8loaded.pc = 0x200 ∧ c8loaded.I = 0 ∧ c8loaded.sp = 0 ∧
     c8loaded.draw_flag = true ∧
     c8loaded.delay_timer = c8pre.delay_timer ∧
     c8loaded.sound_timer = c8pre.sound_timer ∧
     (List.length [0xAB] : Nat) ≤ 3584 ∧
     (∀ i, i < 0x200 → c8loaded.memory.getD i 0 = 0) ∧
     (∀ j, j < List.length [0xAB] →
        c8loaded.memory.getD (0x200 + j) 0 = [0xAB].getD j 0 % 256)) :=
  ⟨rfl, c8_load_state c8pre [0xAB] c8loaded rfl⟩
